import Mathlib

/-!
Verification of the n8n Phacet community nodes
(`spx-software/n8n-phacet-official`).

The repository ships two n8n nodes — a `Phacet` action node and a
`PhacetTrigger` webhook trigger node — in several near-duplicate historical
variants.  This development gives a shallow embedding of the behaviourally
relevant routines:

* the hand-rolled `multipart/form-data` encoder used by `uploadFile`
  (`nodes/Phacet/PhacetTrigger.node.ts` and the `part_001` variants), together
  with a standards-conforming single-part multipart parser used to state the
  encode/parse round-trip;
* the trigger's webhook lifecycle (`checkExists` / `create` / `delete`) and
  its inbound webhook filter/enricher, as implemented in the `part_000`
  variant of `PhacetTrigger`, which stores and compares the full
  configuration;
* the `create` hook of the current `PhacetTrigger.node.ts`, including its
  `http://localhost:<port>` rewriting;
* the action node's `execute` loop (validation, per-cell file upload,
  continue-on-fail handling) for the current `PhacetTrigger.node.ts` variant
  and for the `part_001` variant that supports pre-supplied file ids.

Machine integers do not occur; byte payloads are modelled as `List Nat`
(byte values), JSON-ish values as an inductive `JVal`, JavaScript objects as
association lists with JS assignment semantics, and every outbound HTTP call
as a value of an `ApiReq` type recorded in a trace, with responses supplied
by an explicit oracle argument.
-/

/-! ## Byte sequences and generic list scanning

Bytes are `Nat` values; ASCII string literals from the source are converted
with `asciiBytes`.  `leadsWith`, `stripLead`, `containsSeq` and `splitOnSeq`
are the generic scanning primitives of the conforming multipart parser:
`splitOnSeq pat l` splits `l` at the FIRST occurrence of `pat`, as a
conforming parser scans for the first boundary delimiter. -/
def asciiBytes (s : String) : List Nat := s.data.map Char.toNat

def crlf : List Nat := [13, 10]

def dashdash : List Nat := [45, 45]

/-- `leadsWith pat l` is true iff `pat` is an initial segment of `l`. -/
def leadsWith {α : Type} [DecidableEq α] : List α → List α → Bool
  | [], _ => true
  | _ :: _, [] => false
  | p :: ps, x :: xs => p = x && leadsWith ps xs

/-- Remove the initial segment `pat` from `l`, or fail. -/
def stripLead {α : Type} [DecidableEq α] (pat l : List α) : Option (List α) :=
  if leadsWith pat l then some (l.drop pat.length) else none

/-- `containsSeq pat l` is true iff `pat` occurs contiguously inside `l`. -/
def containsSeq {α : Type} [DecidableEq α] (pat : List α) : List α → Bool
  | [] => leadsWith pat []
  | x :: xs => leadsWith pat (x :: xs) || containsSeq pat xs

/-- Split `l` at the first occurrence of `pat`: returns the part before the
occurrence and the part after it. -/
def splitOnSeq {α : Type} [DecidableEq α] (pat : List α) : List α → Option (List α × List α)
  | [] => none
  | x :: xs =>
    if leadsWith pat (x :: xs) then some ([], (x :: xs).drop pat.length)
    else
      match splitOnSeq pat xs with
      | some (a, b) => some (x :: a, b)
      | none => none

/-! ## Multipart encoder

`uploadFile` (`nodes/Phacet/PhacetTrigger.node.ts` lines 286-299, identical in
the `part_001` variants) builds the multipart body by concatenating, in order:
`--{boundary}\r\n`, the `Content-Disposition` header line, the `Content-Type`
header block, the raw payload bytes, and `\r\n--{boundary}--\r\n`.  The
boundary is `----formdata-n8n-` followed by `Math.random().toString(16)`,
whose characters are decimal digits, `a`-`f`, or `.`. -/
/-- Bytes that `Math.random().toString(16)` can produce. -/
def isBoundaryTailByte (b : Nat) : Bool :=
  b == 46 || (48 ≤ b && b ≤ 57) || (97 ≤ b && b ≤ 102)

/-- `----formdata-n8n-${Math.random().toString(16)}` -/
def mkBoundary (tail : List Nat) : List Nat := asciiBytes ("----formdata-n8n-") ++ tail

/-- The byte body assembled by `uploadFile` via `Buffer.concat(parts)`:
`--{boundary}\r\n`, `Content-Disposition: form-data; name="file";
filename="{filename}"\r\n`, `Content-Type: application/pdf\r\n\r\n`, the raw
payload, then `\r\n--{boundary}--\r\n`. -/
def multipartBody (boundary filename payload : List Nat) : List Nat :=
  asciiBytes ("--") ++ boundary ++ asciiBytes ("\r\n")
    ++ asciiBytes ("Content-Disposition: form-data; name=\"file\"; filename=\"")
    ++ filename ++ asciiBytes ("\"\r\n")
    ++ asciiBytes ("Content-Type: application/pdf\r\n\r\n")
    ++ payload
    ++ asciiBytes ("\r\n--") ++ boundary ++ asciiBytes ("--\r\n")

/-! ## Conforming multipart parser

Modelled from the spec: the repository contains no multipart parser; the spec
demands that "`encode(...)` output, when parsed by a standards-conforming
multipart parser, yields exactly one part whose disposition name, filename,
content-type, and body bytes equal the inputs".  `parseMultipart` is such a
parser for single-part bodies with the header layout the encoder emits: it
strips the first dash-boundary line, reads the two header lines up to the
blank line, extracts the filename as the RFC 2183 quoted-string value
(everything up to the closing double quote), and takes the part body to be
everything before the FIRST occurrence of the `\r\n--{boundary}` delimiter,
which must be immediately followed by the closing `--\r\n`. -/
def dispositionLead : List Nat :=
  asciiBytes ("Content-Disposition: form-data; name=\"file\"; filename=\"")

def contentTypeBytes : List Nat := asciiBytes ("Content-Type: application/pdf")

/-- Parse a single-part multipart body delimited by `boundary`.  Returns
`some (filename, content)` on success. -/
def parseMultipart (boundary body : List Nat) : Option (List Nat × List Nat) :=
  match stripLead (dashdash ++ boundary ++ crlf) body with
  | none => none
  | some r1 =>
    match splitOnSeq crlf r1 with
    | none => none
    | some (h1, r2) =>
      match splitOnSeq crlf r2 with
      | none => none
      | some (h2, r3) =>
        match stripLead crlf r3 with
        | none => none
        | some r4 =>
          match stripLead dispositionLead h1 with
          | none => none
          | some fnPart =>
            let fn := fnPart.takeWhile (fun b => b != 34)
            if fnPart.drop fn.length = [34] && h2 = contentTypeBytes then
              match splitOnSeq (crlf ++ dashdash ++ boundary) r4 with
              | none => none
              | some (content, rest) =>
                if rest = dashdash ++ crlf then some (fn, content) else none
            else none

/-! ## JSON-ish values and JavaScript object semantics

Webhook bodies and HTTP responses are JSON values.  `JVal.undef` represents
JavaScript `undefined` (absent property); an object is an association list in
property order, updated with JS assignment semantics (`setK` overwrites in
place or appends).  JSON numbers are modelled as integers (no claim involves
fractional numbers). -/
inductive JVal where
  | undef
  | null
  | bool (b : Bool)
  | num (n : Int)
  | str (s : String)
  | obj (fields : List (String × JVal))

abbrev Obj := List (String × JVal)

/-- JS property read: `o[key]`, `undefined` when absent. -/
def getV : Obj → String → JVal
  | [], _ => .undef
  | (k, v) :: rest, key => if k = key then v else getV rest key

/-- `key in o` (own-property test). -/
def hasKey : Obj → String → Bool
  | [], _ => false
  | (k, _) :: rest, key => k == key || hasKey rest key

/-- JS property write `o[key] = v`: overwrite the binding in place, else
append a new one. -/
def setK : Obj → String → JVal → Obj
  | [], key, v => [(key, v)]
  | (k1, v1) :: rest, key, v =>
    if k1 = key then (key, v) :: rest else (k1, v1) :: setK rest key v

/-- Spreading `extra` over an already materialised `base` object (as in the
object literal the webhook handler builds): assign every field of `extra`
onto `base` in order. -/
def spreadInto (base extra : Obj) : Obj :=
  extra.foldl (fun acc kv => setK acc kv.1 kv.2) base

/-- JS truthiness. -/
def JVal.truthy : JVal → Bool
  | .undef => false
  | .null => false
  | .bool b => b
  | .num n => n != 0
  | .str s => s != ""
  | .obj _ => true

/-- Strict equality `v === s` against a string value. -/
def jsEqStr (v : JVal) (s : String) : Bool :=
  match v with
  | .str t => t == s
  | _ => false

/-- `a || b` on strings (`''` is falsy). -/
def jsOr (a b : String) : String := if a == "" then b else a

/-- Truthiness of a `string | undefined` value. -/
def optTruthy : Option String → Bool
  | none => false
  | some s => s != ""

/-! ## Outbound HTTP requests, errors, oracles

Every call through `this.helpers.httpRequestWithAuthentication` is recorded
as an `ApiReq`; the response (or the thrown error's message) is supplied by
an oracle.  `reqMethod`/`reqUrlV2`/`reqUrlV1` reproduce the method and URL
templates of the source (the current `PhacetTrigger.node.ts` uses the
`/api/v2/...` templates; the `part_001` variant uses `/api/v1/...` for files
and rows). -/
inductive ApiReq where
  | postFile (filename : String) (payload : List Nat)
  | postRow (tableId sessionId : String) (cells : List (String × String))
  | putRow (tableId rowId : String) (cells : List (String × String))
  | getRow (tableId rowId : String)
  | getCellUrl (tableId cellId : String)
  | postEndpoint (url : String) (eventTypes : List String) (tableIds : List String)
      (description : String)
  | deleteEndpoint (endpointId : String)
deriving DecidableEq

def ApiReq.isUpload : ApiReq → Bool
  | .postFile _ _ => true
  | _ => false

def ApiReq.isRowWrite : ApiReq → Bool
  | .postRow _ _ _ => true
  | .putRow _ _ _ => true
  | _ => false

def reqMethod : ApiReq → String
  | .postFile _ _ => "POST"
  | .postRow _ _ _ => "POST"
  | .putRow _ _ _ => "PUT"
  | .getRow _ _ => "GET"
  | .getCellUrl _ _ => "GET"
  | .postEndpoint _ _ _ _ => "POST"
  | .deleteEndpoint _ => "DELETE"

def reqUrlV2 : ApiReq → String
  | .postFile _ _ => "https://api.phacetlabs.com/api/v2/files"
  | .postRow t _ _ => "https://api.phacetlabs.com/api/v2/tables/" ++ t ++ "/rows"
  | .putRow t r _ => "https://api.phacetlabs.com/api/v2/tables/" ++ t ++ "/rows/" ++ r
  | .getRow t r => "https://api.phacetlabs.com/api/v2/tables/" ++ t ++ "/rows/" ++ r
  | .getCellUrl t c =>
      "https://api.phacetlabs.com/api/v2/tables/" ++ t ++ "/cells/" ++ c ++ "/download-file-url"
  | .postEndpoint _ _ _ _ => "https://api.phacetlabs.com/api/v2/webhooks/endpoints"
  | .deleteEndpoint e => "https://api.phacetlabs.com/api/v2/webhooks/endpoints/" ++ e

def reqUrlV1 : ApiReq → String
  | .postFile _ _ => "https://api.phacetlabs.com/api/v1/files"
  | .postRow t _ _ => "https://api.phacetlabs.com/api/v1/phacets/" ++ t ++ "/rows"
  | r => reqUrlV2 r

/-- Responses are JSON values; a thrown HTTP error carries its message. -/
def Oracle := ApiReq → Except String JVal

/-- `uploadResponse.id` as the string the code then uses as a cell value (a
response without an `id` field would propagate `undefined`; modelled as `""`,
which no claim distinguishes). -/
def respId (v : JVal) : String :=
  match v with
  | .obj o =>
    match getV o "id" with
    | .str s => s
    | _ => ""
  | _ => ""

/-- The errors `execute`/`uploadFile` can raise.  `NodeOperationError`s carry
the item index they are attributed to; `httpFail` is an error thrown by the
host's HTTP client, `binaryNotFound` one thrown by `assertBinaryData` /
`getBinaryDataBuffer`. -/
inductive ExecError where
  | missingTable (itemIndex : Nat)
  | missingPhacet (itemIndex : Nat)
  | missingSession (itemIndex : Nat)
  | missingRow (itemIndex : Nat)
  | missingCellId (itemIndex : Nat)
  | emptyCells (itemIndex : Nat)
  | missingBinaryProp (itemIndex : Nat)
  | binaryNotFound (itemIndex : Nat) (prop : String)
  | notPdf (itemIndex : Nat) (filename : String)
  | uploadWrap (itemIndex : Nat) (inner : String)
  | httpFail (msg : String)
deriving DecidableEq

/-- The `message` of the corresponding JS error (host-raised messages for
`binaryNotFound`/`httpFail` are host-owned; represented schematically). -/
def ExecError.message : ExecError → String
  | .missingTable _ => "Table ID is required"
  | .missingPhacet _ => "Phacet ID is required"
  | .missingSession _ => "Session ID is required"
  | .missingRow _ => "Row ID is required"
  | .missingCellId _ => "Cell ID is required"
  | .emptyCells _ => "At least one cell is required"
  | .missingBinaryProp _ => "Binary property is required for file cells"
  | .binaryNotFound _ p => "No binary data found for property " ++ p
  | .notPdf _ fn => "Only PDF files are supported. File \"" ++ fn ++ "\" is not a PDF."
  | .uploadWrap _ inner => "Failed to upload file for cell: " ++ inner
  | .httpFail m => m

/-- Field-level validations: raised before the per-cell loop starts. -/
def ExecError.isFieldValidation : ExecError → Bool
  | .missingTable _ => true
  | .missingPhacet _ => true
  | .missingSession _ => true
  | .missingRow _ => true
  | .missingCellId _ => true
  | .emptyCells _ => true
  | _ => false

/-- All validation errors (field-level plus per-cell binary/PDF checks). -/
def ExecError.isValidation : ExecError → Bool
  | .missingBinaryProp _ => true
  | .binaryNotFound _ _ => true
  | .notPdf _ _ => true
  | e => e.isFieldValidation

def ExecError.isNotPdf : ExecError → Bool
  | .notPdf _ _ => true
  | _ => false

/-- The item index a `NodeOperationError` is attributed to (`{ itemIndex }`). -/
def ExecError.itemIdx : ExecError → Option Nat
  | .missingTable i => some i
  | .missingPhacet i => some i
  | .missingSession i => some i
  | .missingRow i => some i
  | .missingCellId i => some i
  | .emptyCells i => some i
  | .missingBinaryProp i => some i
  | .binaryNotFound i _ => some i
  | .notPdf i _ => some i
  | .uploadWrap i _ => some i
  | .httpFail _ => none

/-- The inline record pushed for a failed item under `continueOnFail`:
`{ json: { error: (error as Error).message } }`. -/
def errRecord (e : ExecError) : JVal := .obj [("error", .str e.message)]

/-! ## Binary data and filename resolution -/
/-- One entry of an item's binary data: metadata from `assertBinaryData`
plus the buffer bytes. -/
structure BinaryEntry where
  fileName : Option String
  binId : Option String
  bytes : List Nat

/-- `originalFilename || binaryData.fileName || 'file.pdf'` (`undefined` and
`''` are both falsy for `||`). -/
def resolveFilename (originalFilename fileName : Option String) : String :=
  jsOr (originalFilename.getD "") (jsOr (fileName.getD "") "file.pdf")

def endsWithList (suf l : List Char) : Bool := leadsWith suf.reverse l.reverse

/-- `filename.toLowerCase().endsWith('.pdf')` (ASCII lowering; non-ASCII
case-mapping differences between JS and Lean do not affect the claims). -/
def pdfOk (s : String) : Bool := endsWithList ((".pdf").data) (s.data.map Char.toLower)

/-- The multipart byte body `uploadFile` POSTs, for ambient boundary suffix
`tail` (the code draws it from `Math.random().toString(16)`). -/
def postFileBody (tail : List Nat) (filename : String) (payload : List Nat) : List Nat :=
  multipartBody (mkBoundary tail) (asciiBytes filename) payload

/-! ## `PhacetTrigger` (`src/unnamed/part_000` variant)

This variant stores the full configuration in the workflow static data and
compares it in `checkExists`; its `webhook` handler filters on event type and
table id.  (The `nodes/Phacet/PhacetTrigger.node.ts` variant differs: its
`checkExists` tests only `!!webhookData.endpointId` and its `webhook` does not
filter; its `create` is embedded separately below as `NodeTs.createHook`.) -/
namespace Part000

/-- The per-node workflow static data (`getWorkflowStaticData('node')`). -/
structure StaticData where
  webhookEndpointId : Option String
  webhookSecret : Option String
  webhookUrl : Option String
  eventType : Option String
  tableId : Option String

/-- `webhookMethods.default.checkExists` (part_000 lines 95-113):
`!!staticData.webhookEndpointId && staticData.webhookUrl === webhookUrl &&
staticData.eventType === eventType && staticData.tableId === tableId`. -/
def checkExists (sd : StaticData) (webhookUrl : Option String)
    (event tableId : String) : Bool :=
  optTruthy sd.webhookEndpointId
    && sd.webhookUrl == webhookUrl
    && sd.eventType == some event
    && sd.tableId == some tableId

/-- The registration response (`POST /api/v2/webhooks/endpoints` returns
`{endpointId | id, secret}` per the documented remote contract). -/
structure RegResp where
  endpointId : Option String
  id : Option String
  secret : Option String

/-- `webhookMethods.default.create` (part_000 lines 115-188).  Throws when
the host yields no webhook URL or `event`/`tableId` are falsy; otherwise
POSTs `{url, eventTypes: [event], tableIds: [tableId], description}` and
persists `endpointId ?? id ?? previous`, `secret ?? previous`, and the
resolved configuration. -/
def create (sd : StaticData) (webhookUrl : Option String) (event tableId : String)
    (workflowName : String) (resp : RegResp) : Except Unit (StaticData × ApiReq) :=
  if !(optTruthy webhookUrl) then .error ()
  else if event == "" then .error ()
  else if tableId == "" then .error ()
  else
    let req := ApiReq.postEndpoint (webhookUrl.getD "") [event] [tableId]
      ("n8n workflow: " ++ workflowName)
    let sd' : StaticData :=
      { webhookEndpointId := (resp.endpointId <|> resp.id) <|> sd.webhookEndpointId
        webhookSecret := resp.secret <|> sd.webhookSecret
        webhookUrl := webhookUrl
        eventType := some event
        tableId := some tableId }
    .ok (sd', req)

/-- `webhookMethods.default.delete` (part_000 lines 190-223): if an endpoint
id is known, attempt a remote DELETE whose outcome `remote` is swallowed by
the `try/catch` (`logger.warn` only); always clear every stored field and
return `true`. -/
def deleteHook (sd : StaticData) (remote : Except Unit Unit) :
    Option ApiReq × StaticData × Bool :=
  let req : Option ApiReq :=
    if optTruthy sd.webhookEndpointId then
      some (ApiReq.deleteEndpoint (sd.webhookEndpointId.getD ""))
    else none
  -- `catch (error) { this.logger.warn(...) }` — the remote outcome is ignored
  let _swallowed := match remote with
    | .ok _ => ()
    | .error _ => ()
  (req, ⟨none, none, none, none, none⟩, true)

/-- The node's configured parameters read inside `webhook`. -/
structure TriggerCfg where
  event : String
  tableId : String

/-- `const eventData = (body.data ?? body)`: the nested `data` object, or the
whole body when `data` is nullish.  A primitive (non-object, non-null) `data`
value has no own properties to read or spread and is modelled as the empty
object (a string primitive would additionally spread indexed characters;
no claim reads the record contents of such a delivery). -/
def effData (body : Obj) : Obj :=
  match getV body "data" with
  | .obj d => d
  | .undef => body
  | .null => body
  | _ => []

/-- The `webhook` handler (part_000 lines 265-317).  `fetchRow` is the
outcome of the enrichment `GET /tables/{tableId}/rows/{rowId}`; its failure
is swallowed (`logger.warn`).  Returns the emitted output records. -/
def webhook (cfg : TriggerCfg) (body : Obj) (fetchRow : Except Unit JVal) : List Obj :=
  if !(jsEqStr (getV body "eventType") cfg.event) then []
  else
    let eventData := effData body
    if cfg.tableId != "" && (getV eventData "tableId").truthy
        && !(jsEqStr (getV eventData "tableId") cfg.tableId) then []
    else
      let out0 : Obj := [("eventType", getV body "eventType"), ("eventId", getV body "eventId")]
      let out1 := spreadInto out0 eventData
      let out2 := if cfg.tableId != "" then setK out1 "tableId" (.str cfg.tableId) else out1
      let rowId := getV eventData "rowId"
      let out3 :=
        if rowId.truthy && cfg.tableId != "" then
          match fetchRow with
          | .ok r => setK out2 "row" r
          | .error _ => out2
        else out2
      [out3]

end Part000

/-! ## `Phacet` action node (current `nodes/Phacet/PhacetTrigger.node.ts`)

`execute` (lines 744-969) dispatches on `(resource, operation)`, validates
parameters per item, resolves file cells by uploading through `uploadFile`
(lines 269-315), and collects one output record per item; under
`continueOnFail` a failed item contributes an inline `{error}` record. -/
namespace NodeTs

/-- One entry of the `cells.cellValues` fixed collection. -/
structure CellParam where
  columnId : String
  value : Option String
  cellType : Option String
  binaryProperty : Option String
  originalFilename : Option String

/-- Parameters resolved for one input item (strings default to `''` when the
parameter is unset), plus the item's binary data keyed by property name. -/
structure ItemParams where
  tableId : String
  sessionId : String
  rowId : String
  cellId : String
  cells : List CellParam
  binary : String → Option BinaryEntry

/-- `uploadFile` (lines 269-315): `assertBinaryData`, filename resolution,
PDF-extension validation, then POST of the multipart body; returns
`{ id, filename }`. -/
def uploadFile (binary : String → Option BinaryEntry) (itemIndex : Nat)
    (binaryPropertyName : String) (originalFilename : Option String)
    (oracle : Oracle) : List ApiReq × Except ExecError (String × String) :=
  match binary binaryPropertyName with
  | none => ([], .error (.binaryNotFound itemIndex binaryPropertyName))
  | some bd =>
    let filename := resolveFilename originalFilename bd.fileName
    if !(pdfOk filename) then ([], .error (.notPdf itemIndex filename))
    else
      let req := ApiReq.postFile filename bd.bytes
      match oracle req with
      | .error m => ([req], .error (.httpFail m))
      | .ok v => ([req], .ok (respId v, filename))

/-- The per-cell loop of `create`/`update` (lines 779-804 / 857-882):
file cells need a truthy `binaryProperty` and are uploaded; other cells pass
`value || ''` through. -/
def processCells (binary : String → Option BinaryEntry) (i : Nat) (oracle : Oracle) :
    List CellParam → List ApiReq × Except ExecError (List (String × String))
  | [] => ([], .ok [])
  | c :: cs =>
    if c.cellType == some "file" then
      if !(optTruthy c.binaryProperty) then ([], .error (.missingBinaryProp i))
      else
        match uploadFile binary i (c.binaryProperty.getD "") c.originalFilename oracle with
        | (tr, .error e) => (tr, .error e)
        | (tr, .ok (fileId, _fn)) =>
          match processCells binary i oracle cs with
          | (tr', .error e) => (tr ++ tr', .error e)
          | (tr', .ok rest) => (tr ++ tr', .ok ((c.columnId, fileId) :: rest))
    else
      match processCells binary i oracle cs with
      | (tr', .error e) => (tr', .error e)
      | (tr', .ok rest) => (tr', .ok ((c.columnId, c.value.getD "") :: rest))

/-- `operation === 'create'` branch (lines 754-831). -/
def createOp (p : ItemParams) (i : Nat) (oracle : Oracle) :
    List ApiReq × Except ExecError (List JVal) :=
  if p.tableId == "" then ([], .error (.missingTable i))
  else if p.sessionId == "" then ([], .error (.missingSession i))
  else if p.cells.isEmpty then ([], .error (.emptyCells i))
  else
    match processCells p.binary i oracle p.cells with
    | (tr, .error e) => (tr, .error e)
    | (tr, .ok cellsOut) =>
      let req := ApiReq.postRow p.tableId p.sessionId cellsOut
      match oracle req with
      | .error m => (tr ++ [req], .error (.httpFail m))
      | .ok v => (tr ++ [req], .ok [v])

/-- `operation === 'update'` branch (lines 832-908). -/
def updateOp (p : ItemParams) (i : Nat) (oracle : Oracle) :
    List ApiReq × Except ExecError (List JVal) :=
  if p.tableId == "" then ([], .error (.missingTable i))
  else if p.rowId == "" then ([], .error (.missingRow i))
  else if p.cells.isEmpty then ([], .error (.emptyCells i))
  else
    match processCells p.binary i oracle p.cells with
    | (tr, .error e) => (tr, .error e)
    | (tr, .ok cellsOut) =>
      let req := ApiReq.putRow p.tableId p.rowId cellsOut
      match oracle req with
      | .error m => (tr ++ [req], .error (.httpFail m))
      | .ok v => (tr ++ [req], .ok [v])

/-- `operation === 'getCellDownloadUrl'` branch (lines 909-932). -/
def getCellUrlOp (p : ItemParams) (i : Nat) (oracle : Oracle) :
    List ApiReq × Except ExecError (List JVal) :=
  if p.tableId == "" then ([], .error (.missingTable i))
  else if p.cellId == "" then ([], .error (.missingCellId i))
  else
    let req := ApiReq.getCellUrl p.tableId p.cellId
    match oracle req with
    | .error m => ([req], .error (.httpFail m))
    | .ok v => ([req], .ok [v])

/-- `operation === 'get'` branch (lines 933-957). -/
def getOp (p : ItemParams) (i : Nat) (oracle : Oracle) :
    List ApiReq × Except ExecError (List JVal) :=
  if p.tableId == "" then ([], .error (.missingTable i))
  else if p.rowId == "" then ([], .error (.missingRow i))
  else
    let req := ApiReq.getRow p.tableId p.rowId
    match oracle req with
    | .error m => ([req], .error (.httpFail m))
    | .ok v => ([req], .ok [v])

/-- The body of the `try` block for one item: dispatch on
`(resource, operation)`; an unmatched pair pushes nothing. -/
def processItem (p : ItemParams) (i : Nat) (resource operation : String)
    (oracle : Oracle) : List ApiReq × Except ExecError (List JVal) :=
  if resource == "row" then
    if operation == "create" then createOp p i oracle
    else if operation == "update" then updateOp p i oracle
    else if operation == "getCellDownloadUrl" then getCellUrlOp p i oracle
    else if operation == "get" then getOp p i oracle
    else ([], .ok [])
  else ([], .ok [])

/-- The item loop with its `try/catch` (lines 751-966): on error, push
`{ json: { error: message } }` and `continue` when `continueOnFail()`,
otherwise rethrow. -/
def runItems (params : Nat → ItemParams) (resource operation : String) (cof : Bool)
    (oracle : Oracle) : List Nat → List ApiReq × Except ExecError (List JVal)
  | [] => ([], .ok [])
  | i :: is =>
    match processItem (params i) i resource operation oracle with
    | (tr, .ok outs) =>
      match runItems params resource operation cof oracle is with
      | (tr', .error e) => (tr ++ tr', .error e)
      | (tr', .ok rest) => (tr ++ tr', .ok (outs ++ rest))
    | (tr, .error e) =>
      if cof then
        match runItems params resource operation cof oracle is with
        | (tr', .error e') => (tr ++ tr', .error e')
        | (tr', .ok rest) => (tr ++ tr', .ok (errRecord e :: rest))
      else (tr, .error e)

/-- `Phacet.execute` over `n` input items; returns the request trace and
either the collected records or the propagated first error. -/
def execute (n : Nat) (params : Nat → ItemParams) (resource operation : String)
    (cof : Bool) (oracle : Oracle) : List ApiReq × Except ExecError (List JVal) :=
  runItems params resource operation cof oracle (List.range n)

end NodeTs

/-! ## `webhookMethods.default.create` of the current `PhacetTrigger.node.ts`

Lines 138-175: `webhookUrl.replace(/http:\/\/localhost:\d+/,
'https://api.phacetlabs.com')` — a non-global regex replace, i.e. the
LEFTMOST match of `http://localhost:` followed by a maximal nonempty digit
run, anywhere in the string, is replaced. -/
def lhPat : List Char := ("http://localhost:").data

def httpsRepl : List Char := ("https://api.phacetlabs.com").data

/-- One-shot regex replace `/http:\/\/localhost:\d+/ → https://api.phacetlabs.com`:
scan left to right; at the first position where `http://localhost:` is
followed by at least one digit, replace that match (greedy digits) and stop. -/
def scanLocalhost : List Char → List Char
  | [] => []
  | c :: cs =>
    if leadsWith lhPat (c :: cs) then
      match (c :: cs).drop lhPat.length with
      | d :: r =>
        if d.isDigit then httpsRepl ++ ((d :: r).dropWhile Char.isDigit)
        else c :: scanLocalhost cs
      | [] => c :: scanLocalhost cs
    else c :: scanLocalhost cs

/-- Whether the regex `/http:\/\/localhost:\d+/` matches anywhere. -/
def hasLhMatch : List Char → Bool
  | [] => false
  | c :: cs =>
    if leadsWith lhPat (c :: cs) then
      match (c :: cs).drop lhPat.length with
      | d :: _ => if d.isDigit then true else hasLhMatch cs
      | [] => hasLhMatch cs
    else hasLhMatch cs

def replaceLocalhost (s : String) : String := String.mk (scanLocalhost s.data)

namespace NodeTs

/-- `webhookMethods.default.create` (lines 138-175): the registration request
it POSTs.  The registered callback URL is the host URL after the localhost
rewrite; `phacetIds: [phacetId]` is attached only when `phacetId` is truthy
(the absent field is modelled as `[]`). -/
def createHook (webhookUrl event phacetId : String) : ApiReq :=
  ApiReq.postEndpoint (replaceLocalhost webhookUrl) [event]
    (if phacetId == "" then [] else [phacetId])
    ("n8n trigger for " ++ event)

end NodeTs

/-! ## `Phacet` action node (`src/unnamed/part_001`, third variant)

The variant at part_001 lines 1146-1665: cells carry a `valueType`
(`text`/`file`) and file cells a `fileSource` (`upload`/`fileId`); a
pre-supplied `fileId` skips the upload.  Its `uploadFile` reads the buffer
through `binaryData.id || 'data'` and POSTs to the v1 files endpoint. -/
namespace Part001

/-- One entry of the `cells.cellValues` collection (`CellValue` interface). -/
structure P1Cell where
  columnId : String
  valueType : Option String
  value : Option String
  fileSource : Option String
  binaryProperty : Option String
  originalFilename : Option String
  fileId : Option String

def isFileCell (c : P1Cell) : Bool := c.valueType == some "file"

def isFileIdSrc (c : P1Cell) : Bool := c.fileSource == some "fileId"

/-- File cells whose `fileSource` is not `'fileId'` take the upload path. -/
def isUploadSrc (c : P1Cell) : Bool := isFileCell c && !(isFileIdSrc c)

/-- `uploadFile` (part_001 lines 1179-1234): `assertBinaryData(binaryProperty)`
for the metadata, `getBinaryDataBuffer(i, binaryData.id || 'data')` for the
bytes (`props` and `buffers` model the two lookups; an `undefined` property
name is modelled as `""`). -/
def uploadFile (props : String → Option BinaryEntry) (buffers : String → Option (List Nat))
    (i : Nat) (binaryProperty : String) (orig : Option String) (oracle : Oracle) :
    List ApiReq × Except ExecError String :=
  match props binaryProperty with
  | none => ([], .error (.binaryNotFound i binaryProperty))
  | some bd =>
    let filename := resolveFilename orig bd.fileName
    if !(pdfOk filename) then ([], .error (.notPdf i filename))
    else
      match buffers (jsOr (bd.binId.getD "") "data") with
      | none => ([], .error (.binaryNotFound i binaryProperty))
      | some bytes =>
        let req := ApiReq.postFile filename bytes
        match oracle req with
        | .error m => ([req], .error (.httpFail m))
        | .ok v => ([req], .ok (respId v))

/-- The per-cell loop of `create` (lines 1584-1620): `fileSource === 'fileId'`
uses `fileId || ''` directly with no upload; the upload path wraps any error
in `Failed to upload file for cell: ...`. -/
def processCells (props : String → Option BinaryEntry) (buffers : String → Option (List Nat))
    (i : Nat) (oracle : Oracle) :
    List P1Cell → List ApiReq × Except ExecError (List (String × String))
  | [] => ([], .ok [])
  | c :: cs =>
    if c.valueType == some "file" then
      if c.fileSource == some "fileId" then
        match processCells props buffers i oracle cs with
        | (tr, .error e) => (tr, .error e)
        | (tr, .ok rest) => (tr, .ok ((c.columnId, c.fileId.getD "") :: rest))
      else
        match uploadFile props buffers i (c.binaryProperty.getD "") c.originalFilename oracle with
        | (tr, .error e) => (tr, .error (.uploadWrap i e.message))
        | (tr, .ok fid) =>
          match processCells props buffers i oracle cs with
          | (tr', .error e) => (tr ++ tr', .error e)
          | (tr', .ok rest) => (tr ++ tr', .ok ((c.columnId, fid) :: rest))
    else
      match processCells props buffers i oracle cs with
      | (tr', .error e) => (tr', .error e)
      | (tr', .ok rest) => (tr', .ok ((c.columnId, c.value.getD "") :: rest))

/-- The `resource === 'row' && operation === 'create'` branch of `execute`
(lines 1563-1651). -/
def createOp (phacetId sessionId : String) (cells : List P1Cell)
    (props : String → Option BinaryEntry) (buffers : String → Option (List Nat))
    (i : Nat) (oracle : Oracle) : List ApiReq × Except ExecError (List JVal) :=
  if phacetId == "" then ([], .error (.missingPhacet i))
  else if sessionId == "" then ([], .error (.missingSession i))
  else if cells.isEmpty then ([], .error (.emptyCells i))
  else
    match processCells props buffers i oracle cells with
    | (tr, .error e) => (tr, .error e)
    | (tr, .ok cellsOut) =>
      let req := ApiReq.postRow phacetId sessionId cellsOut
      match oracle req with
      | .error m => (tr ++ [req], .error (.httpFail m))
      | .ok v => (tr ++ [req], .ok [v])

/-- The binary metadata a cell's property name resolves to (defaulting for
the specification of the success path). -/
def cellMeta (props : String → Option BinaryEntry) (c : P1Cell) : BinaryEntry :=
  (props (c.binaryProperty.getD "")).getD ⟨none, none, []⟩

def cellName (props : String → Option BinaryEntry) (c : P1Cell) : String :=
  resolveFilename c.originalFilename (cellMeta props c).fileName

def cellBytes (props : String → Option BinaryEntry) (buffers : String → Option (List Nat))
    (c : P1Cell) : List Nat :=
  (buffers (jsOr ((cellMeta props c).binId.getD "") "data")).getD []

/-- The upload requests one cell contributes: none unless it takes the
upload path. -/
def cellTrace (props : String → Option BinaryEntry) (buffers : String → Option (List Nat))
    (c : P1Cell) : List ApiReq :=
  if isUploadSrc c then [ApiReq.postFile (cellName props c) (cellBytes props buffers c)]
  else []

def uploadIdAt (oracle : Oracle) (r : ApiReq) : String :=
  match oracle r with
  | .ok v => respId v
  | .error _ => ""

/-- The `{columnId, value}` pair one cell contributes on the success path. -/
def cellVal (props : String → Option BinaryEntry) (buffers : String → Option (List Nat))
    (oracle : Oracle) (c : P1Cell) : String × String :=
  if isFileCell c then
    if isFileIdSrc c then (c.columnId, c.fileId.getD "")
    else (c.columnId,
      uploadIdAt oracle (ApiReq.postFile (cellName props c) (cellBytes props buffers c)))
  else (c.columnId, c.value.getD "")

/-- An upload-path cell resolves: its binary metadata and buffer exist, the
resolved filename passes the PDF check, and the upload POST succeeds. -/
def Resolves (props : String → Option BinaryEntry) (buffers : String → Option (List Nat))
    (oracle : Oracle) (c : P1Cell) : Prop :=
  ∃ bd, props (c.binaryProperty.getD "") = some bd
    ∧ pdfOk (resolveFilename c.originalFilename bd.fileName) = true
    ∧ ∃ bytes, buffers (jsOr (bd.binId.getD "") "data") = some bytes
      ∧ ∃ v, oracle (ApiReq.postFile (resolveFilename c.originalFilename bd.fileName) bytes)
          = Except.ok v

end Part001

theorem leadsWith_append_self {α : Type} [DecidableEq α] (p l : List α) :
    leadsWith p (p ++ l) = true := by
  induction p with
  | nil => rfl
  | cons x xs ih => simp [leadsWith, ih]

theorem leadsWith_iff_take {α : Type} [DecidableEq α] (p l : List α) :
    leadsWith p l = true ↔ l.take p.length = p := by
  induction p generalizing l with
  | nil => simp [leadsWith]
  | cons x xs ih =>
    cases l with
    | nil => simp [leadsWith]
    | cons y ys =>
      simp only [leadsWith, List.length_cons, List.take_succ_cons, Bool.and_eq_true,
        decide_eq_true_eq, List.cons.injEq, ih]
      tauto

theorem stripLead_append {α : Type} [DecidableEq α] (p l : List α) :
    stripLead p (p ++ l) = some l := by
  simp [stripLead, leadsWith_append_self, List.drop_left]

/-- `containsSeq` is exactly "occurs as a contiguous segment". -/
theorem containsSeq_iff {α : Type} [DecidableEq α] (p l : List α) :
    containsSeq p l = true ↔ ∃ a b, l = a ++ p ++ b := by
  induction l with
  | nil =>
    constructor
    · intro h
      cases p with
      | nil => exact ⟨[], [], rfl⟩
      | cons q qs => simp [containsSeq, leadsWith] at h
    · rintro ⟨a, b, h⟩
      have ha : a = [] ∧ p = [] ∧ b = [] := by simpa [List.append_assoc] using h.symm
      rcases ha with ⟨_, hp, _⟩
      subst hp; simp [containsSeq, leadsWith]
  | cons x xs ih =>
    constructor
    · intro h
      rcases Bool.or_eq_true_iff.mp h with h | h
      · rw [leadsWith_iff_take] at h
        refine ⟨[], (x :: xs).drop p.length, ?_⟩
        conv_lhs => rw [← List.take_append_drop p.length (x :: xs)]
        rw [h]; simp
      · rcases ih.mp h with ⟨a, b, hab⟩
        exact ⟨x :: a, b, by simp [hab]⟩
    · rintro ⟨a, b, h⟩
      cases a with
      | nil =>
        simp only [List.nil_append] at h
        simp only [containsSeq, Bool.or_eq_true]
        left
        rw [h]
        exact leadsWith_append_self p b
      | cons y ys =>
        simp only [List.cons_append, List.cons.injEq] at h
        simp only [containsSeq, Bool.or_eq_true]
        exact Or.inr (ih.mpr ⟨ys, b, h.2⟩)

theorem containsSeq_append_middle {α : Type} [DecidableEq α] (p a b : List α) :
    containsSeq p (a ++ p ++ b) = true :=
  (containsSeq_iff p _).mpr ⟨a, b, rfl⟩

/-- Monotonicity: an occurrence of `u ++ v` yields an occurrence of `v`. -/
theorem containsSeq_of_containsSeq_append {α : Type} [DecidableEq α] (u v l : List α)
    (h : containsSeq (u ++ v) l = true) : containsSeq v l = true := by
  rcases (containsSeq_iff _ _).mp h with ⟨a, b, hab⟩
  exact (containsSeq_iff _ _).mpr ⟨a ++ u, b, by simp [hab, List.append_assoc]⟩

theorem splitOnSeq_cons_self {α : Type} [DecidableEq α] (c : α) (t b : List α) :
    splitOnSeq (c :: t) ((c :: t) ++ b) = some ([], b) := by
  have hl : leadsWith (c :: t) ((c :: t) ++ b) = true := leadsWith_append_self _ _
  have he : (c :: t) ++ b = c :: (t ++ b) := rfl
  rw [he] at hl ⊢
  simp only [splitOnSeq, hl, if_pos]
  rw [← he, List.drop_left]

/-- The delimiter `c :: t` cannot start strictly inside `(y :: ys) ++ (c :: t) ++ b`
when its leading element `c` does not occur in its own tail `t` and the
delimiter does not occur inside `y :: ys` (the "a CRLF-led delimiter cannot
overlap itself" argument behind multipart binary safety). -/
theorem leadsWith_eq_false_of_no_overlap {α : Type} [DecidableEq α]
    (c : α) (t : List α) (y : α) (ys b : List α)
    (hc : c ∉ t) (hna : containsSeq (c :: t) (y :: ys) = false) :
    leadsWith (c :: t) ((y :: ys) ++ (c :: t) ++ b) = false := by
  set D : List α := c :: t with hD
  set a2 : List α := y :: ys with ha2
  cases hlead : leadsWith D (a2 ++ D ++ b) with
  | false => rfl
  | true =>
    exfalso
    have htake : (a2 ++ D ++ b).take D.length = D := (leadsWith_iff_take _ _).mp hlead
    have hassoc : a2 ++ D ++ b = a2 ++ (D ++ b) := List.append_assoc _ _ _
    rw [hassoc] at htake
    rcases le_or_lt D.length a2.length with hk | hk
    · -- the occurrence would fit entirely inside `a2`, contradicting `hna`
      have h1 : (a2 ++ (D ++ b)).take D.length
          = a2.take D.length ++ (D ++ b).take (D.length - a2.length) :=
        List.take_append_eq_append_take
      rw [Nat.sub_eq_zero_of_le hk, List.take_zero, List.append_nil] at h1
      have h2 : a2.take D.length = D := by rw [← h1, htake]
      have h3 : a2 = D ++ a2.drop D.length := by
        conv_lhs => rw [← List.take_append_drop D.length a2]
        rw [h2]
      have : containsSeq D a2 = true :=
        (containsSeq_iff _ _).mpr ⟨[], a2.drop D.length, by simpa using h3⟩
      rw [hna] at this
      exact Bool.false_ne_true this
    · -- the occurrence would straddle the junction, forcing `c ∈ t`
      have h1 : (a2 ++ (D ++ b)).take D.length
          = a2.take D.length ++ (D ++ b).take (D.length - a2.length) :=
        List.take_append_eq_append_take
      rw [List.take_of_length_le (le_of_lt hk)] at h1
      have h2 : (D ++ b).take (D.length - a2.length)
          = D.take (D.length - a2.length) ++ b.take (D.length - a2.length - D.length) :=
        List.take_append_eq_append_take
      rw [Nat.sub_eq_zero_of_le (Nat.sub_le _ _), List.take_zero, List.append_nil] at h2
      obtain ⟨n, hn⟩ : ∃ n, D.length - a2.length = n + 1 :=
        ⟨D.length - a2.length - 1, by omega⟩
      have h4 : D.take (D.length - a2.length) = c :: t.take n := by
        rw [hn, hD]; rfl
      have h3 : D = a2 ++ (c :: t.take n) := by
        rw [← htake, h1, h2, h4]
      rw [hD, ha2, List.cons_append] at h3
      have hcy : c = y ∧ t = ys ++ c :: t.take n := by
        constructor
        · exact (List.cons.injEq _ _ _ _ ▸ h3 : _ ∧ _).1
        · exact (List.cons.injEq _ _ _ _ ▸ h3 : _ ∧ _).2
      have : c ∈ t := by
        rw [hcy.2]
        exact List.mem_append_right _ (List.mem_cons_self _ _)
      exact hc this

/-- First-occurrence splitting when the delimiter's leading element does not
occur in the prefix `a` at all (used for header lines, which contain no CR). -/
theorem splitOnSeq_first_of_head_notin {α : Type} [DecidableEq α]
    (c : α) (t a b : List α) (ha : ∀ x ∈ a, x ≠ c) :
    splitOnSeq (c :: t) (a ++ (c :: t) ++ b) = some (a, b) := by
  induction a with
  | nil => simpa using splitOnSeq_cons_self c t b
  | cons y ys ih =>
    have hy : (decide (c = y)) = false :=
      decide_eq_false (fun h => ha y (List.mem_cons_self _ _) h.symm)
    have hlead : leadsWith (c :: t) (y :: (ys ++ (c :: t) ++ b)) = false := by
      simp [leadsWith, hy]
    have hrec := ih (fun x hx => ha x (List.mem_cons_of_mem _ hx))
    have hshape : (y :: ys) ++ (c :: t) ++ b = y :: (ys ++ (c :: t) ++ b) := by
      simp
    rw [hshape]
    simp only [splitOnSeq, hlead, Bool.false_eq_true, if_false]
    rw [hrec]

/-- First-occurrence splitting for a self-overlap-free delimiter `c :: t`
(`c ∉ t`) that does not occur in the prefix `a` (used for the part body,
which may contain CR bytes but not the boundary delimiter). -/
theorem splitOnSeq_first_of_no_overlap {α : Type} [DecidableEq α]
    (c : α) (t a b : List α) (hc : c ∉ t) (ha : containsSeq (c :: t) a = false) :
    splitOnSeq (c :: t) (a ++ (c :: t) ++ b) = some (a, b) := by
  induction a with
  | nil => simpa using splitOnSeq_cons_self c t b
  | cons y ys ih =>
    have hlead := leadsWith_eq_false_of_no_overlap c t y ys b hc ha
    have hna' : containsSeq (c :: t) ys = false := by
      have h := ha
      simp only [containsSeq, Bool.or_eq_false_iff] at h
      exact h.2
    have hrec := ih hna'
    have hshape : (y :: ys) ++ (c :: t) ++ b = y :: (ys ++ (c :: t) ++ b) := by
      simp
    rw [hshape] at hlead ⊢
    simp only [splitOnSeq, hlead, Bool.false_eq_true, if_false]
    rw [hrec]

theorem takeWhile_until_quote (fn : List Nat) (h : ∀ b ∈ fn, b ≠ 34) :
    (fn ++ [34]).takeWhile (fun b => b != 34) = fn := by
  induction fn with
  | nil => simp
  | cons x xs ih =>
    have hx : x ≠ 34 := h x (List.mem_cons_self _ _)
    have hx' : (x != 34) = true := by simpa [bne_iff_ne] using hx
    simp only [List.cons_append, List.takeWhile_cons, hx', if_true]
    rw [ih (fun b hb => h b (List.mem_cons_of_mem _ hb))]

theorem dispositionLead_no_cr : ∀ x ∈ dispositionLead, x ≠ 13 := by decide

theorem contentTypeBytes_no_cr : ∀ x ∈ contentTypeBytes, x ≠ 13 := by decide

theorem mkBoundary_no_cr (tail : List Nat)
    (htail : ∀ b ∈ tail, isBoundaryTailByte b = true) : (13 : Nat) ∉ mkBoundary tail := by
  intro hmem
  rcases List.mem_append.mp hmem with h | h
  · exact absurd h (by decide)
  · have := htail 13 h
    simp [isBoundaryTailByte] at this

/-- Encode/parse round-trip for the multipart body built by `uploadFile`:
for any boundary suffix producible by `Math.random().toString(16)`, any
filename free of double-quote and CR/LF bytes, and any payload that does not
contain the boundary token, the conforming parse recovers exactly the
filename and the payload. -/
theorem parseMultipart_multipartBody (tail fn payload : List Nat)
    (htail : ∀ b ∈ tail, isBoundaryTailByte b = true)
    (hfn34 : ∀ b ∈ fn, b ≠ 34)
    (hfn13 : ∀ b ∈ fn, b ≠ 13)
    (hpl : containsSeq (mkBoundary tail) payload = false) :
    parseMultipart (mkBoundary tail) (multipartBody (mkBoundary tail) fn payload)
      = some (fn, payload) := by
  set B : List Nat := mkBoundary tail with hB
  have hB13 : (13 : Nat) ∉ B := mkBoundary_no_cr tail htail
  -- the byte body, regrouped around the five parser stages
  set r4val : List Nat := payload ++ (crlf ++ dashdash ++ B) ++ (dashdash ++ crlf) with hr4
  set r3val : List Nat := crlf ++ r4val with hr3
  set r2val : List Nat := contentTypeBytes ++ crlf ++ r3val with hr2
  set r1val : List Nat := (dispositionLead ++ fn ++ [34]) ++ crlf ++ r2val with hr1
  have hbody : multipartBody B fn payload = (dashdash ++ B ++ crlf) ++ r1val := by
    rw [hr1, hr2, hr3, hr4]
    show multipartBody B fn payload = _
    rw [multipartBody]
    have e1 : asciiBytes ("--") = dashdash := rfl
    have e2 : asciiBytes ("\r\n") = crlf := rfl
    have e3 : asciiBytes ("Content-Disposition: form-data; name=\"file\"; filename=\"")
        = dispositionLead := rfl
    have e4 : asciiBytes ("\"\r\n") = [34] ++ crlf := rfl
    have e5 : asciiBytes ("Content-Type: application/pdf\r\n\r\n")
        = contentTypeBytes ++ crlf ++ crlf := by decide
    have e6 : asciiBytes ("\r\n--") = crlf ++ dashdash := rfl
    have e7 : asciiBytes ("--\r\n") = dashdash ++ crlf := rfl
    rw [e1, e2, e3, e4, e5, e6, e7]
    simp only [List.append_assoc]
  have s1 : stripLead (dashdash ++ B ++ crlf) (multipartBody B fn payload) = some r1val := by
    rw [hbody]; exact stripLead_append _ _
  have ha1 : ∀ x ∈ dispositionLead ++ fn ++ [34], x ≠ 13 := by
    intro x hx
    rcases List.mem_append.mp hx with hx | hx
    · rcases List.mem_append.mp hx with hx | hx
      · exact dispositionLead_no_cr x hx
      · exact hfn13 x hx
    · intro hc; subst hc
      simp at hx
  have s2 : splitOnSeq crlf r1val = some (dispositionLead ++ fn ++ [34], r2val) :=
    splitOnSeq_first_of_head_notin 13 [10] (dispositionLead ++ fn ++ [34]) r2val ha1
  have s3 : splitOnSeq crlf r2val = some (contentTypeBytes, r3val) :=
    splitOnSeq_first_of_head_notin 13 [10] contentTypeBytes r3val contentTypeBytes_no_cr
  have s4 : stripLead crlf r3val = some r4val := stripLead_append _ _
  have s5 : stripLead dispositionLead (dispositionLead ++ fn ++ [34]) = some (fn ++ [34]) := by
    rw [List.append_assoc]; exact stripLead_append _ _
  have s6 : (fn ++ [34]).takeWhile (fun b => b != 34) = fn := takeWhile_until_quote fn hfn34
  have s7 : (fn ++ [34]).drop fn.length = [34] := List.drop_left _ _
  have hc8 : (13 : Nat) ∉ ([10, 45, 45] ++ B : List Nat) := by
    intro hmem
    rcases List.mem_append.mp hmem with h | h
    · simp at h
    · exact hB13 h
  have ha8 : containsSeq ((13 : Nat) :: ([10, 45, 45] ++ B)) payload = false := by
    cases hcs : containsSeq ((13 : Nat) :: ([10, 45, 45] ++ B)) payload with
    | false => rfl
    | true =>
      exfalso
      have : containsSeq (([13, 10, 45, 45] : List Nat) ++ B) payload = true := hcs
      have := containsSeq_of_containsSeq_append _ _ _ this
      rw [hpl] at this
      exact Bool.false_ne_true this
  have s8 : splitOnSeq (crlf ++ dashdash ++ B) r4val = some (payload, dashdash ++ crlf) :=
    splitOnSeq_first_of_no_overlap 13 ([10, 45, 45] ++ B) payload (dashdash ++ crlf) hc8 ha8
  rw [parseMultipart, s1]
  simp only [s2, s3, s4, s5, s6, s7, s8]
  simp

/-! ## Lemmas about the JS object model -/
theorem hasKey_iff_mem (o : Obj) (k : String) :
    hasKey o k = true ↔ k ∈ o.map Prod.fst := by
  induction o with
  | nil => simp [hasKey]
  | cons kv rest ih =>
    cases kv with
    | mk k1 v1 =>
      simp only [hasKey, Bool.or_eq_true, beq_iff_eq, List.map_cons, List.mem_cons, ih]
      tauto

theorem getV_setK_self (o : Obj) (k : String) (v : JVal) :
    getV (setK o k v) k = v := by
  induction o with
  | nil => simp [setK, getV]
  | cons kv rest ih =>
    cases kv with
    | mk k1 v1 =>
      by_cases hk : k1 = k
      · simp [setK, hk, getV]
      · simp [setK, hk, getV, ih]

theorem getV_setK_ne (o : Obj) (k k' : String) (v : JVal) (h : k ≠ k') :
    getV (setK o k v) k' = getV o k' := by
  induction o with
  | nil => simp [setK, getV, h]
  | cons kv rest ih =>
    cases kv with
    | mk k1 v1 =>
      by_cases hk : k1 = k
      · subst hk
        simp [setK, getV, h]
      · by_cases hk' : k1 = k'
        · simp [setK, hk, getV, hk', Ne.symm h]
        · simp [setK, hk, getV, hk', ih]

theorem hasKey_setK_self (o : Obj) (k : String) (v : JVal) :
    hasKey (setK o k v) k = true := by
  induction o with
  | nil => simp [setK, hasKey]
  | cons kv rest ih =>
    cases kv with
    | mk k1 v1 =>
      by_cases hk : k1 = k
      · simp [setK, hk, hasKey]
      · simp [setK, hk, hasKey, ih]

theorem hasKey_setK_ne (o : Obj) (k k' : String) (v : JVal) (h : k ≠ k') :
    hasKey (setK o k v) k' = hasKey o k' := by
  induction o with
  | nil => simp [setK, hasKey, h]
  | cons kv rest ih =>
    cases kv with
    | mk k1 v1 =>
      by_cases hk : k1 = k
      · subst hk
        simp [setK, hasKey, h]
      · simp [setK, hk, hasKey, ih]

theorem spreadInto_cons (b : Obj) (k1 : String) (v1 : JVal) (rest : Obj) :
    spreadInto b ((k1, v1) :: rest) = spreadInto (setK b k1 v1) rest := rfl

theorem hasKey_spreadInto (b d : Obj) (k : String) :
    hasKey (spreadInto b d) k = (hasKey b k || hasKey d k) := by
  induction d generalizing b with
  | nil => simp [spreadInto, hasKey]
  | cons kv rest ih =>
    cases kv with
    | mk k1 v1 =>
      rw [spreadInto_cons, ih]
      by_cases hk : k1 = k
      · subst hk
        simp [hasKey_setK_self, hasKey]
      · rw [hasKey_setK_ne _ _ _ _ hk]
        simp only [hasKey]
        have : (k1 == k) = false := by simpa using hk
        simp [this, Bool.or_assoc]

theorem getV_spreadInto_of_not_in (b d : Obj) (k : String)
    (h : hasKey d k = false) : getV (spreadInto b d) k = getV b k := by
  induction d generalizing b with
  | nil => simp [spreadInto]
  | cons kv rest ih =>
    cases kv with
    | mk k1 v1 =>
      simp only [hasKey, Bool.or_eq_false_iff, beq_eq_false_iff_ne, ne_eq] at h
      rw [spreadInto_cons, ih _ (by simpa using h.2), getV_setK_ne _ _ _ _ h.1]

theorem getV_spreadInto_of_in (b d : Obj) (k : String)
    (hnd : (d.map Prod.fst).Nodup) (h : hasKey d k = true) :
    getV (spreadInto b d) k = getV d k := by
  induction d generalizing b with
  | nil => simp [hasKey] at h
  | cons kv rest ih =>
    cases kv with
    | mk k1 v1 =>
      simp only [List.map_cons, List.nodup_cons] at hnd
      by_cases hk : k1 = k
      · subst hk
        have hrest : hasKey rest k1 = false := by
          cases hx : hasKey rest k1 with
          | false => rfl
          | true => exact absurd ((hasKey_iff_mem _ _).mp hx) hnd.1
        rw [spreadInto_cons, getV_spreadInto_of_not_in _ _ _ hrest, getV_setK_self]
        simp [getV]
      · simp only [hasKey, Bool.or_eq_true, beq_iff_eq, hk, false_or] at h
        rw [spreadInto_cons, ih _ hnd.2 h]
        simp [getV, hk]

/-! ## Claim theorems -/
/-- Claim C7: for every prior static-data state, `delete()` returns normally
(it returns `true` whether the remote DELETE succeeded or failed — the
failure is swallowed), always clears every stored webhook-subscription field,
and `checkExists()` invoked afterwards (before any subsequent `create()`)
returns `false` for every configuration. -/
theorem c7_delete_clears_subscription :
    ∀ (sd : Part000.StaticData) (remote : Except Unit Unit) (url : Option String)
      (event tableId : String),
      (Part000.deleteHook sd remote).2.2 = true
      ∧ (Part000.deleteHook sd remote).2.1 = ⟨none, none, none, none, none⟩
      ∧ Part000.checkExists (Part000.deleteHook sd remote).2.1 url event tableId = false := by
  intro sd remote url event tableId
  refine ⟨rfl, rfl, ?_⟩
  simp [Part000.deleteHook, Part000.checkExists, optTruthy]

/-- Claim C2: the webhook handler emits exactly one output record iff the
delivery's `eventType` equals the configured event and, when a table filter
is configured and the payload carries a (truthy) table identifier, that
identifier strictly equals the configured one; otherwise zero records.  The
three concrete scenarios of the claim are restated explicitly. -/
theorem c2_webhook_filter_record_count :
    (∀ (cfg : Part000.TriggerCfg) (body : Obj) (fetch : Except Unit JVal),
      (Part000.webhook cfg body fetch).length =
        (if jsEqStr (getV body "eventType") cfg.event = true
            ∧ (cfg.tableId ≠ "" → (getV (Part000.effData body) "tableId").truthy = true →
                jsEqStr (getV (Part000.effData body) "tableId") cfg.tableId = true)
          then 1 else 0))
    ∧ (∀ fetch,
        (Part000.webhook ⟨"row.calculation.completed", "T1"⟩
          [("eventType", .str "row.created"), ("eventId", .str "e1"),
            ("data", .obj [("tableId", .str "T1"), ("rowId", .str "r1")])] fetch).length = 0)
    ∧ (∀ fetch,
        (Part000.webhook ⟨"row.calculation.completed", "T1"⟩
          [("eventType", .str "row.calculation.completed"), ("eventId", .str "e1"),
            ("data", .obj [("tableId", .str "T2"), ("rowId", .str "r1")])] fetch).length = 0)
    ∧ (∀ fetch,
        (Part000.webhook ⟨"row.calculation.completed", "T1"⟩
          [("eventType", .str "row.calculation.completed"), ("eventId", .str "e1"),
            ("data", .obj [("tableId", .str "T1"), ("rowId", .str "r1")])] fetch).length = 1) := by
  refine ⟨?_, ?_, ?_, ?_⟩
  · intro cfg body fetch
    rw [Part000.webhook]
    cases hev : jsEqStr (getV body "eventType") cfg.event with
    | false =>
      simp only [hev, Bool.not_false, if_true, List.length_nil]
      rw [if_neg]
      simp [hev]
    | true =>
      simp only [hev, Bool.not_true, Bool.false_eq_true, if_false]
      cases htb : (cfg.tableId != "" && (getV (Part000.effData body) "tableId").truthy
          && !(jsEqStr (getV (Part000.effData body) "tableId") cfg.tableId)) with
      | true =>
        simp only [htb, if_true, List.length_nil]
        rw [if_neg]
        intro hcl
        simp only [Bool.and_eq_true, bne_iff_ne, ne_eq, Bool.not_eq_true'] at htb
        rcases htb with ⟨⟨ht1, ht2⟩, ht3⟩
        have := hcl.2 ht1 ht2
        rw [this] at ht3
        exact absurd ht3 (by decide)
      | false =>
        simp only [htb, Bool.false_eq_true, if_false, List.length_singleton]
        have hcl2 : cfg.tableId ≠ "" →
            (getV (Part000.effData body) "tableId").truthy = true →
            jsEqStr (getV (Part000.effData body) "tableId") cfg.tableId = true := by
          intro h1 h2
          simp only [Bool.and_eq_false_iff, bne_eq_false_iff_eq, Bool.not_eq_false] at htb
          rcases htb with (htb | htb) | htb
          · exact absurd htb h1
          · rw [h2] at htb
            exact absurd htb (by decide)
          · simpa using htb
        rw [if_pos ⟨trivial, hcl2⟩]
  · intro fetch; rfl
  · intro fetch; rfl
  · intro fetch; cases fetch <;> rfl

/-- Claim C3: `checkExists()` returns true iff a stored subscription exists
(truthy endpoint id) whose stored callback URL, event type and table filter
all strictly equal the currently configured values; a successful `create()`
(whose registration response supplies a usable endpoint id, per the
documented `{endpointId | id, secret}` contract) followed by `checkExists()`
under the unchanged configuration returns true; `checkExists()` under any
changed configuration returns false. -/
theorem c3_checkExists_matches_configuration :
    ∀ (sd : Part000.StaticData) (url : Option String)
      (event tableId workflowName : String) (resp : Part000.RegResp),
      (Part000.checkExists sd url event tableId = true ↔
        (optTruthy sd.webhookEndpointId = true ∧ sd.webhookUrl = url
          ∧ sd.eventType = some event ∧ sd.tableId = some tableId))
      ∧ (∀ sd' req,
          Part000.create sd url event tableId workflowName resp = .ok (sd', req) →
          optTruthy ((resp.endpointId <|> resp.id) <|> sd.webhookEndpointId) = true →
          Part000.checkExists sd' url event tableId = true)
      ∧ (∀ sd' req url' event' tableId',
          Part000.create sd url event tableId workflowName resp = .ok (sd', req) →
          (url' ≠ url ∨ event' ≠ event ∨ tableId' ≠ tableId) →
          Part000.checkExists sd' url' event' tableId' = false) := by
  intro sd url event tableId workflowName resp
  refine ⟨?_, ?_, ?_⟩
  · simp [Part000.checkExists, Bool.and_eq_true, and_assoc]
  · intro sd' req hcr htr
    rw [Part000.create] at hcr
    split_ifs at hcr
    simp only [Except.ok.injEq, Prod.mk.injEq] at hcr
    rw [← hcr.1]
    simp [Part000.checkExists, htr]
  · intro sd' req url' event' tableId' hcr hne
    rw [Part000.create] at hcr
    split_ifs at hcr
    simp only [Except.ok.injEq, Prod.mk.injEq] at hcr
    rw [← hcr.1]
    rcases hne with hne | hne | hne
    · have hf : (url == url') = false := beq_eq_false_iff_ne.mpr (fun h => hne h.symm)
      simp [Part000.checkExists, hf]
    · have hf : ((some event : Option String) == some event') = false := by
        simp only [beq_eq_false_iff_ne, ne_eq, Option.some.injEq]
        exact fun h => hne h.symm
      simp [Part000.checkExists, hf]
    · have hf : ((some tableId : Option String) == some tableId') = false := by
        simp only [beq_eq_false_iff_ne, ne_eq, Option.some.injEq]
        exact fun h => hne h.symm
      simp [Part000.checkExists, hf]

/-- Witness for C3: a fresh subscription created for
(`https://n8n.example/webhook/abc`, `row.created`, `T1`) makes `checkExists`
true under the same configuration and false once the table filter changes. -/
theorem c3_checkExists_matches_configuration_witness :
    Part000.checkExists
      ⟨some "ep1", some "sec", some "https://n8n.example/webhook/abc",
        some "row.created", some "T1"⟩
      (some "https://n8n.example/webhook/abc") "row.created" "T1" = true
    ∧ Part000.checkExists
      ⟨some "ep1", some "sec", some "https://n8n.example/webhook/abc",
        some "row.created", some "T1"⟩
      (some "https://n8n.example/webhook/abc") "row.created" "T2" = false := by
  have h := c3_checkExists_matches_configuration ⟨none, none, none, none, none⟩
    (some "https://n8n.example/webhook/abc") "row.created" "T1" "wf"
    ⟨some "ep1", none, some "sec"⟩
  exact ⟨h.2.1 _ (ApiReq.postEndpoint ("https://n8n.example/webhook/abc")
        ["row.created"] ["T1"] ("n8n workflow: wf")) rfl (by decide),
    h.2.2 _ (ApiReq.postEndpoint ("https://n8n.example/webhook/abc")
        ["row.created"] ["T1"] ("n8n workflow: wf")) _ "row.created" "T2" rfl
      (Or.inr (Or.inr (by decide)))⟩

/-- Counterexample to C4 as stated: a delivery that passes both filters and
names a row id, whose `data` object itself carries literal `row`,
`eventType` keys.  The enrichment GET fails, yet the single emitted record
HAS a `row` key (the flattened payload's own), and its `eventType` is the
payload's shadowing value, not the delivery's. -/
theorem c4_counterexample :
    Part000.webhook ⟨"row.calculation.completed", "T1"⟩
      [("eventType", JVal.str "row.calculation.completed"), ("eventId", JVal.str "e1"),
        ("data", JVal.obj [("rowId", JVal.str "r1"), ("tableId", JVal.str "T1"),
          ("row", JVal.str "sneaky"), ("eventType", JVal.str "shadow")])]
      (Except.error ())
    = [[("eventType", JVal.str "shadow"), ("eventId", JVal.str "e1"),
        ("rowId", JVal.str "r1"), ("tableId", JVal.str "T1"), ("row", JVal.str "sneaky")]]
    ∧ hasKey [("eventType", JVal.str "shadow"), ("eventId", JVal.str "e1"),
        ("rowId", JVal.str "r1"), ("tableId", JVal.str "T1"), ("row", JVal.str "sneaky")]
        "row" = true
    ∧ JVal.str "shadow" ≠ JVal.str "row.calculation.completed" := by
  refine ⟨rfl, rfl, ?_⟩
  intro h
  simp at h

/-- Claim C4, amended: for a delivery that passes the event and table filters
with an object `data` payload naming a (truthy) row identifier, with a table
configured, and whose payload does not itself carry `row`, `eventType` or
`eventId` keys, a failing enrichment GET still yields exactly one output
record; that record has no `row` key, carries the delivery's `eventType` and
`eventId`, the configured table identifier under `tableId`, and every other
field of the flattened payload unchanged — and the handler returns normally. -/
theorem c4_enrichment_failure_amended :
    ∀ (cfg : Part000.TriggerCfg) (body : Obj) (d : Obj),
      getV body "data" = JVal.obj d →
      (d.map Prod.fst).Nodup →
      hasKey d "row" = false →
      hasKey d "eventType" = false →
      hasKey d "eventId" = false →
      jsEqStr (getV body "eventType") cfg.event = true →
      cfg.tableId ≠ "" →
      (getV d "rowId").truthy = true →
      (cfg.tableId != "" && (getV d "tableId").truthy
        && !(jsEqStr (getV d "tableId") cfg.tableId)) = false →
      (Part000.webhook cfg body (Except.error ())).length = 1
      ∧ (∀ out, Part000.webhook cfg body (Except.error ()) = [out] →
          hasKey out "row" = false
          ∧ getV out "eventType" = getV body "eventType"
          ∧ getV out "eventId" = getV body "eventId"
          ∧ getV out "tableId" = JVal.str cfg.tableId
          ∧ (∀ k, hasKey d k = true → k ≠ "tableId" → getV out k = getV d k)) := by
  intro cfg body d hdata hnd hrowk hetk heik hev htid hrow hfilter
  have heff : Part000.effData body = d := by
    rw [Part000.effData, hdata]
  have htid' : (cfg.tableId != "") = true := by simpa [bne_iff_ne] using htid
  have hweb : Part000.webhook cfg body (Except.error ())
      = [setK (spreadInto
          [("eventType", getV body "eventType"), ("eventId", getV body "eventId")] d)
          "tableId" (JVal.str cfg.tableId)] := by
    rw [Part000.webhook]
    rw [htid', Bool.true_and] at hfilter
    simp only [hev, Bool.not_true, Bool.false_eq_true, if_false, heff, htid',
      Bool.true_and, hfilter, if_true, hrow, Bool.and_self, Bool.and_true]
  refine ⟨by rw [hweb]; rfl, ?_⟩
  intro out hout
  rw [hweb] at hout
  have hout' : out = setK (spreadInto
      [("eventType", getV body "eventType"), ("eventId", getV body "eventId")] d)
      "tableId" (JVal.str cfg.tableId) := by
    simpa using hout.symm
  subst hout'
  refine ⟨?_, ?_, ?_, ?_, ?_⟩
  · rw [hasKey_setK_ne _ _ _ _ (by decide), hasKey_spreadInto, hrowk]
    rfl
  · rw [getV_setK_ne _ _ _ _ (by decide), getV_spreadInto_of_not_in _ _ _ hetk]
    rfl
  · rw [getV_setK_ne _ _ _ _ (by decide), getV_spreadInto_of_not_in _ _ _ heik]
    rfl
  · exact getV_setK_self _ _ _
  · intro k hk hkt
    rw [getV_setK_ne _ _ _ _ (fun h => hkt h.symm), getV_spreadInto_of_in _ _ _ hnd hk]

/-- Witness for the amended C4: a clean delivery whose enrichment GET fails
still yields one record without a `row` key, with the payload flattened. -/
theorem c4_enrichment_failure_amended_witness :
    (Part000.webhook ⟨"row.calculation.completed", "T1"⟩
      [("eventType", JVal.str "row.calculation.completed"), ("eventId", JVal.str "e1"),
        ("data", JVal.obj [("rowId", JVal.str "r1"), ("tableId", JVal.str "T1"),
          ("x", JVal.str "y")])]
      (Except.error ())).length = 1
    ∧ hasKey [("eventType", JVal.str "row.calculation.completed"), ("eventId", JVal.str "e1"),
        ("rowId", JVal.str "r1"), ("tableId", JVal.str "T1"), ("x", JVal.str "y")]
        "row" = false := by
  have h := c4_enrichment_failure_amended ⟨"row.calculation.completed", "T1"⟩
    [("eventType", JVal.str "row.calculation.completed"), ("eventId", JVal.str "e1"),
      ("data", JVal.obj [("rowId", JVal.str "r1"), ("tableId", JVal.str "T1"),
        ("x", JVal.str "y")])]
    [("rowId", JVal.str "r1"), ("tableId", JVal.str "T1"), ("x", JVal.str "y")]
    rfl (by decide) rfl rfl rfl rfl (by decide) rfl rfl
  exact ⟨h.1, by
    have h2 := (h.2 _ rfl).1
    exact h2⟩

theorem nodeTs_uploadFile_trace (binary : String → Option BinaryEntry) (i : Nat)
    (bp : String) (orig : Option String) (oracle : Oracle) :
    (∀ q ∈ (NodeTs.uploadFile binary i bp orig oracle).fst,
      ∃ fn pl, q = ApiReq.postFile fn pl ∧ pdfOk fn = true)
    ∧ (∀ e, (NodeTs.uploadFile binary i bp orig oracle).snd = Except.error e →
        ExecError.isValidation e = true → ExecError.itemIdx e = some i)
    ∧ (∀ e, (NodeTs.uploadFile binary i bp orig oracle).snd = Except.error e →
        ExecError.isFieldValidation e = false) := by
  rw [NodeTs.uploadFile]
  cases hbin : binary bp with
  | none =>
    refine ⟨?_, ?_, ?_⟩
    · intro q hq; simp at hq
    · intro e he _
      simp only [Except.error.injEq] at he
      rw [← he]; rfl
    · intro e he
      simp only [Except.error.injEq] at he
      rw [← he]; rfl
  | some bd =>
    cases hpdf : pdfOk (resolveFilename orig bd.fileName) with
    | false =>
      simp only [hpdf, Bool.not_false, if_true]
      refine ⟨?_, ?_, ?_⟩
      · intro q hq; simp at hq
      · intro e he _
        simp only [Except.error.injEq] at he
        rw [← he]; rfl
      · intro e he
        simp only [Except.error.injEq] at he
        rw [← he]; rfl
    | true =>
      simp only [hpdf, Bool.not_true, Bool.false_eq_true, if_false]
      cases horc : oracle (ApiReq.postFile (resolveFilename orig bd.fileName) bd.bytes) with
      | error m =>
        refine ⟨?_, ?_, ?_⟩
        · intro q hq
          simp only [List.mem_singleton] at hq
          exact ⟨_, _, hq, hpdf⟩
        · intro e he hv
          simp only [Except.error.injEq] at he
          rw [← he] at hv
          simp [ExecError.isValidation, ExecError.isFieldValidation] at hv
        · intro e he
          simp only [Except.error.injEq] at he
          rw [← he]; rfl
      | ok v =>
        refine ⟨?_, ?_, ?_⟩
        · intro q hq
          simp only [List.mem_singleton] at hq
          exact ⟨_, _, hq, hpdf⟩
        · intro e he
          simp at he
        · intro e he
          simp at he

theorem nodeTs_processCells_trace (binary : String → Option BinaryEntry) (i : Nat)
    (oracle : Oracle) (cs : List NodeTs.CellParam) :
    (∀ q ∈ (NodeTs.processCells binary i oracle cs).fst,
      ∃ fn pl, q = ApiReq.postFile fn pl ∧ pdfOk fn = true)
    ∧ (∀ e, (NodeTs.processCells binary i oracle cs).snd = Except.error e →
        ExecError.isValidation e = true → ExecError.itemIdx e = some i)
    ∧ (∀ e, (NodeTs.processCells binary i oracle cs).snd = Except.error e →
        ExecError.isFieldValidation e = false) := by
  induction cs with
  | nil =>
    refine ⟨?_, ?_, ?_⟩
    · intro q hq; simp [NodeTs.processCells] at hq
    · intro e he; simp [NodeTs.processCells] at he
    · intro e he; simp [NodeTs.processCells] at he
  | cons c cs ih =>
    rw [NodeTs.processCells]
    cases hft : c.cellType == some "file" with
    | false =>
      simp only [hft, Bool.false_eq_true, if_false]
      rcases hrec : NodeTs.processCells binary i oracle cs with ⟨tr', r'⟩
      rw [hrec] at ih
      cases r' with
      | error e' =>
        refine ⟨fun q hq => ih.1 q hq, fun e he hv => ?_, fun e he => ?_⟩
        · simp only [Except.error.injEq] at he
          exact ih.2.1 e (by rw [he]) hv
        · simp only [Except.error.injEq] at he
          exact ih.2.2 e (by rw [he])
      | ok rest =>
        refine ⟨fun q hq => ih.1 q hq, fun e he => ?_, fun e he => ?_⟩
        · simp at he
        · simp at he
    | true =>
      simp only [hft, if_true]
      cases hbp : optTruthy c.binaryProperty with
      | false =>
        simp only [hbp, Bool.not_false, if_true]
        refine ⟨?_, ?_, ?_⟩
        · intro q hq; simp at hq
        · intro e he _
          simp only [Except.error.injEq] at he
          rw [← he]; rfl
        · intro e he
          simp only [Except.error.injEq] at he
          rw [← he]; rfl
      | true =>
        simp only [hbp, Bool.not_true, Bool.false_eq_true, if_false]
        have hu := nodeTs_uploadFile_trace binary i (c.binaryProperty.getD "")
          c.originalFilename oracle
        rcases hup : NodeTs.uploadFile binary i (c.binaryProperty.getD "")
            c.originalFilename oracle with ⟨tr, r⟩
        rw [hup] at hu
        cases r with
        | error e' =>
          refine ⟨fun q hq => hu.1 q hq, fun e he hv => ?_, fun e he => ?_⟩
          · simp only [Except.error.injEq] at he
            exact hu.2.1 e (by rw [he]) hv
          · simp only [Except.error.injEq] at he
            exact hu.2.2 e (by rw [he])
        | ok idfn =>
          rcases idfn with ⟨fileId, fn⟩
          rcases hrec : NodeTs.processCells binary i oracle cs with ⟨tr', r'⟩
          rw [hrec] at ih
          cases r' with
          | error e' =>
            refine ⟨?_, ?_, ?_⟩
            · intro q hq
              rcases List.mem_append.mp hq with hq | hq
              · exact hu.1 q hq
              · exact ih.1 q hq
            · intro e he hv
              simp only [Except.error.injEq] at he
              exact ih.2.1 e (by rw [he]) hv
            · intro e he
              simp only [Except.error.injEq] at he
              exact ih.2.2 e (by rw [he])
          | ok rest =>
            refine ⟨?_, ?_, ?_⟩
            · intro q hq
              rcases List.mem_append.mp hq with hq | hq
              · exact hu.1 q hq
              · exact ih.1 q hq
            · intro e he
              simp at he
            · intro e he
              simp at he

theorem nodeTs_createOp_validation (p : NodeTs.ItemParams) (i : Nat) (oracle : Oracle) :
    (∀ e, (NodeTs.createOp p i oracle).snd = Except.error e →
      ExecError.isFieldValidation e = true → (NodeTs.createOp p i oracle).fst = [])
    ∧ (∀ e, (NodeTs.createOp p i oracle).snd = Except.error e →
        ExecError.isValidation e = true →
        ExecError.itemIdx e = some i
        ∧ ∀ q ∈ (NodeTs.createOp p i oracle).fst, ApiReq.isRowWrite q = false)
    ∧ (∀ q ∈ (NodeTs.createOp p i oracle).fst, ApiReq.isUpload q = true →
        ∃ fn pl, q = ApiReq.postFile fn pl ∧ pdfOk fn = true) := by
  rw [NodeTs.createOp]
  split_ifs with h1 h2 h3
  · exact ⟨fun e he _ => rfl,
      fun e he _ => ⟨by simp only [Except.error.injEq] at he; rw [← he]; rfl,
        fun q hq => by simp at hq⟩,
      fun q hq => by simp at hq⟩
  · exact ⟨fun e he _ => rfl,
      fun e he _ => ⟨by simp only [Except.error.injEq] at he; rw [← he]; rfl,
        fun q hq => by simp at hq⟩,
      fun q hq => by simp at hq⟩
  · exact ⟨fun e he _ => rfl,
      fun e he _ => ⟨by simp only [Except.error.injEq] at he; rw [← he]; rfl,
        fun q hq => by simp at hq⟩,
      fun q hq => by simp at hq⟩
  · have hct := nodeTs_processCells_trace p.binary i oracle p.cells
    rcases hpc : NodeTs.processCells p.binary i oracle p.cells with ⟨tr, r⟩
    rw [hpc] at hct
    cases r with
    | error e' =>
      refine ⟨?_, ?_, ?_⟩
      · intro e he hf
        simp only [Except.error.injEq] at he
        cases he
        rw [hct.2.2 e' rfl] at hf
        exact absurd hf (by decide)
      · intro e he hv
        simp only [Except.error.injEq] at he
        cases he
        refine ⟨hct.2.1 e' rfl hv, ?_⟩
        intro q hq
        rcases hct.1 q hq with ⟨fn, pl, hq', _⟩
        rw [hq']; rfl
      · intro q hq _
        exact hct.1 q hq
    | ok cellsOut =>
      cases horc : oracle (ApiReq.postRow p.tableId p.sessionId cellsOut) with
      | error m =>
        simp only [horc]
        refine ⟨?_, ?_, ?_⟩
        · intro e he hf
          simp only [Except.error.injEq] at he
          rw [← he] at hf
          simp [ExecError.isFieldValidation] at hf
        · intro e he hv
          simp only [Except.error.injEq] at he
          rw [← he] at hv
          simp [ExecError.isValidation, ExecError.isFieldValidation] at hv
        · intro q hq hup
          simp only [List.mem_append, List.mem_singleton] at hq
          rcases hq with hq | hq
          · exact hct.1 q hq
          · rw [hq] at hup
            simp [ApiReq.isUpload] at hup
      | ok v =>
        simp only [horc]
        refine ⟨?_, ?_, ?_⟩
        · intro e he
          simp at he
        · intro e he
          simp at he
        · intro q hq hup
          simp only [List.mem_append, List.mem_singleton] at hq
          rcases hq with hq | hq
          · exact hct.1 q hq
          · rw [hq] at hup
            simp [ApiReq.isUpload] at hup

theorem nodeTs_updateOp_validation (p : NodeTs.ItemParams) (i : Nat) (oracle : Oracle) :
    (∀ e, (NodeTs.updateOp p i oracle).snd = Except.error e →
      ExecError.isFieldValidation e = true → (NodeTs.updateOp p i oracle).fst = [])
    ∧ (∀ e, (NodeTs.updateOp p i oracle).snd = Except.error e →
        ExecError.isValidation e = true →
        ExecError.itemIdx e = some i
        ∧ ∀ q ∈ (NodeTs.updateOp p i oracle).fst, ApiReq.isRowWrite q = false)
    ∧ (∀ q ∈ (NodeTs.updateOp p i oracle).fst, ApiReq.isUpload q = true →
        ∃ fn pl, q = ApiReq.postFile fn pl ∧ pdfOk fn = true) := by
  rw [NodeTs.updateOp]
  split_ifs with h1 h2 h3
  · exact ⟨fun e he _ => rfl,
      fun e he _ => ⟨by simp only [Except.error.injEq] at he; rw [← he]; rfl,
        fun q hq => by simp at hq⟩,
      fun q hq => by simp at hq⟩
  · exact ⟨fun e he _ => rfl,
      fun e he _ => ⟨by simp only [Except.error.injEq] at he; rw [← he]; rfl,
        fun q hq => by simp at hq⟩,
      fun q hq => by simp at hq⟩
  · exact ⟨fun e he _ => rfl,
      fun e he _ => ⟨by simp only [Except.error.injEq] at he; rw [← he]; rfl,
        fun q hq => by simp at hq⟩,
      fun q hq => by simp at hq⟩
  · have hct := nodeTs_processCells_trace p.binary i oracle p.cells
    rcases hpc : NodeTs.processCells p.binary i oracle p.cells with ⟨tr, r⟩
    rw [hpc] at hct
    cases r with
    | error e' =>
      refine ⟨?_, ?_, ?_⟩
      · intro e he hf
        simp only [Except.error.injEq] at he
        cases he
        rw [hct.2.2 e' rfl] at hf
        exact absurd hf (by decide)
      · intro e he hv
        simp only [Except.error.injEq] at he
        cases he
        refine ⟨hct.2.1 e' rfl hv, ?_⟩
        intro q hq
        rcases hct.1 q hq with ⟨fn, pl, hq', _⟩
        rw [hq']; rfl
      · intro q hq _
        exact hct.1 q hq
    | ok cellsOut =>
      cases horc : oracle (ApiReq.putRow p.tableId p.rowId cellsOut) with
      | error m =>
        simp only [horc]
        refine ⟨?_, ?_, ?_⟩
        · intro e he hf
          simp only [Except.error.injEq] at he
          rw [← he] at hf
          simp [ExecError.isFieldValidation] at hf
        · intro e he hv
          simp only [Except.error.injEq] at he
          rw [← he] at hv
          simp [ExecError.isValidation, ExecError.isFieldValidation] at hv
        · intro q hq hup
          simp only [List.mem_append, List.mem_singleton] at hq
          rcases hq with hq | hq
          · exact hct.1 q hq
          · rw [hq] at hup
            simp [ApiReq.isUpload] at hup
      | ok v =>
        simp only [horc]
        refine ⟨?_, ?_, ?_⟩
        · intro e he
          simp at he
        · intro e he
          simp at he
        · intro q hq hup
          simp only [List.mem_append, List.mem_singleton] at hq
          rcases hq with hq | hq
          · exact hct.1 q hq
          · rw [hq] at hup
            simp [ApiReq.isUpload] at hup

theorem nodeTs_getOp_validation (p : NodeTs.ItemParams) (i : Nat) (oracle : Oracle) :
    (∀ e, (NodeTs.getOp p i oracle).snd = Except.error e →
      ExecError.isFieldValidation e = true → (NodeTs.getOp p i oracle).fst = [])
    ∧ (∀ e, (NodeTs.getOp p i oracle).snd = Except.error e →
        ExecError.isValidation e = true →
        ExecError.itemIdx e = some i
        ∧ ∀ q ∈ (NodeTs.getOp p i oracle).fst, ApiReq.isRowWrite q = false)
    ∧ (∀ q ∈ (NodeTs.getOp p i oracle).fst, ApiReq.isUpload q = true →
        ∃ fn pl, q = ApiReq.postFile fn pl ∧ pdfOk fn = true) := by
  rw [NodeTs.getOp]
  split_ifs with h1 h2
  · exact ⟨fun e he _ => rfl,
      fun e he _ => ⟨by simp only [Except.error.injEq] at he; rw [← he]; rfl,
        fun q hq => by simp at hq⟩,
      fun q hq => by simp at hq⟩
  · exact ⟨fun e he _ => rfl,
      fun e he _ => ⟨by simp only [Except.error.injEq] at he; rw [← he]; rfl,
        fun q hq => by simp at hq⟩,
      fun q hq => by simp at hq⟩
  · cases horc : oracle (ApiReq.getRow p.tableId p.rowId) with
    | error m =>
      simp only [horc]
      refine ⟨?_, ?_, ?_⟩
      · intro e he hf
        simp only [Except.error.injEq] at he
        rw [← he] at hf
        simp [ExecError.isFieldValidation] at hf
      · intro e he hv
        simp only [Except.error.injEq] at he
        rw [← he] at hv
        simp [ExecError.isValidation, ExecError.isFieldValidation] at hv
      · intro q hq hup
        simp only [List.mem_singleton] at hq
        rw [hq] at hup
        simp [ApiReq.isUpload] at hup
    | ok v =>
      simp only [horc]
      refine ⟨?_, ?_, ?_⟩
      · intro e he
        simp at he
      · intro e he
        simp at he
      · intro q hq hup
        simp only [List.mem_singleton] at hq
        rw [hq] at hup
        simp [ApiReq.isUpload] at hup

theorem nodeTs_getCellUrlOp_validation (p : NodeTs.ItemParams) (i : Nat) (oracle : Oracle) :
    (∀ e, (NodeTs.getCellUrlOp p i oracle).snd = Except.error e →
      ExecError.isFieldValidation e = true → (NodeTs.getCellUrlOp p i oracle).fst = [])
    ∧ (∀ e, (NodeTs.getCellUrlOp p i oracle).snd = Except.error e →
        ExecError.isValidation e = true →
        ExecError.itemIdx e = some i
        ∧ ∀ q ∈ (NodeTs.getCellUrlOp p i oracle).fst, ApiReq.isRowWrite q = false)
    ∧ (∀ q ∈ (NodeTs.getCellUrlOp p i oracle).fst, ApiReq.isUpload q = true →
        ∃ fn pl, q = ApiReq.postFile fn pl ∧ pdfOk fn = true) := by
  rw [NodeTs.getCellUrlOp]
  split_ifs with h1 h2
  · exact ⟨fun e he _ => rfl,
      fun e he _ => ⟨by simp only [Except.error.injEq] at he; rw [← he]; rfl,
        fun q hq => by simp at hq⟩,
      fun q hq => by simp at hq⟩
  · exact ⟨fun e he _ => rfl,
      fun e he _ => ⟨by simp only [Except.error.injEq] at he; rw [← he]; rfl,
        fun q hq => by simp at hq⟩,
      fun q hq => by simp at hq⟩
  · cases horc : oracle (ApiReq.getCellUrl p.tableId p.cellId) with
    | error m =>
      simp only [horc]
      refine ⟨?_, ?_, ?_⟩
      · intro e he hf
        simp only [Except.error.injEq] at he
        rw [← he] at hf
        simp [ExecError.isFieldValidation] at hf
      · intro e he hv
        simp only [Except.error.injEq] at he
        rw [← he] at hv
        simp [ExecError.isValidation, ExecError.isFieldValidation] at hv
      · intro q hq hup
        simp only [List.mem_singleton] at hq
        rw [hq] at hup
        simp [ApiReq.isUpload] at hup
    | ok v =>
      simp only [horc]
      refine ⟨?_, ?_, ?_⟩
      · intro e he
        simp at he
      · intro e he
        simp at he
      · intro q hq hup
        simp only [List.mem_singleton] at hq
        rw [hq] at hup
        simp [ApiReq.isUpload] at hup

/-- Counterexample to C5 as stated: an item whose first file cell is a valid
PDF and whose second file cell has a non-PDF filename.  The extension
validation error (attributed to the item) is raised only AFTER the first
cell's upload POST has already been issued, so a network request for the item
precedes the validation failure. -/
theorem c5_counterexample :
    NodeTs.processItem
      ⟨"T", "S", "", "",
        [⟨"c1", none, some "file", some "b1", some "a.pdf"⟩,
          ⟨"c2", none, some "file", some "b2", some "b.txt"⟩],
        fun s => if s = "b1" then some ⟨some "a.pdf", none, [1]⟩
          else if s = "b2" then some ⟨some "b.txt", none, [2]⟩ else none⟩
      0 "row" "create" (fun _ => Except.ok (JVal.obj [("id", JVal.str "F1")]))
    = ([ApiReq.postFile "a.pdf" [1]], Except.error (ExecError.notPdf 0 "b.txt"))
    ∧ ([ApiReq.postFile "a.pdf" [1]] : List ApiReq) ≠ [] := by
  exact ⟨rfl, by simp⟩

/-- Claim C5, amended: in `execute`'s per-item processing, every validation
error is attributed to the item's index; field-level validation failures
(missing table/session/row/cell identifier, empty cell list) are raised
before ANY request for the item; a per-cell validation failure (missing
binary property, missing binary data, non-PDF filename) is raised before the
row write and before that cell's upload — every upload already issued carries
a filename passing the PDF check, so none belongs to the failing cell —
though uploads for earlier valid file cells of the same item may already have
been issued. -/
theorem c5_validation_order_amended :
    ∀ (p : NodeTs.ItemParams) (i : Nat) (resource operation : String) (oracle : Oracle),
      (∀ e, (NodeTs.processItem p i resource operation oracle).snd = Except.error e →
        ExecError.isFieldValidation e = true →
        (NodeTs.processItem p i resource operation oracle).fst = [])
      ∧ (∀ e, (NodeTs.processItem p i resource operation oracle).snd = Except.error e →
          ExecError.isValidation e = true →
          ExecError.itemIdx e = some i
          ∧ ∀ q ∈ (NodeTs.processItem p i resource operation oracle).fst,
              ApiReq.isRowWrite q = false)
      ∧ (∀ q ∈ (NodeTs.processItem p i resource operation oracle).fst,
          ApiReq.isUpload q = true →
          ∃ fn pl, q = ApiReq.postFile fn pl ∧ pdfOk fn = true) := by
  intro p i resource operation oracle
  rw [NodeTs.processItem]
  split_ifs
  · exact nodeTs_createOp_validation p i oracle
  · exact nodeTs_updateOp_validation p i oracle
  · exact nodeTs_getCellUrlOp_validation p i oracle
  · exact nodeTs_getOp_validation p i oracle
  · exact ⟨fun e he => by simp at he, fun e he => by simp at he,
      fun q hq => by simp at hq⟩
  · exact ⟨fun e he => by simp at he, fun e he => by simp at he,
      fun q hq => by simp at hq⟩

/-- Witness for the amended C5: a missing session id on item 0 errors with
the item index attributed and an empty request trace. -/
theorem c5_validation_order_amended_witness :
    (NodeTs.processItem ⟨"T", "", "", "", [⟨"c1", some "x", none, none, none⟩],
        fun _ => none⟩ 0 "row" "create"
        (fun _ => Except.ok JVal.null)).fst = []
    ∧ ExecError.itemIdx (ExecError.missingSession 0) = some 0 := by
  have h := c5_validation_order_amended
    ⟨"T", "", "", "", [⟨"c1", some "x", none, none, none⟩], fun _ => none⟩
    0 "row" "create" (fun _ => Except.ok JVal.null)
  exact ⟨h.1 (ExecError.missingSession 0) rfl rfl,
    (h.2.1 (ExecError.missingSession 0) rfl rfl).1⟩

theorem part001_processCells_spec (props : String → Option BinaryEntry)
    (buffers : String → Option (List Nat)) (i : Nat) (oracle : Oracle)
    (cells : List Part001.P1Cell)
    (hres : ∀ c ∈ cells, Part001.isUploadSrc c = true →
      Part001.Resolves props buffers oracle c) :
    Part001.processCells props buffers i oracle cells
      = (cells.flatMap (Part001.cellTrace props buffers),
          Except.ok (cells.map (Part001.cellVal props buffers oracle))) := by
  induction cells with
  | nil => rfl
  | cons c cs ih =>
    have hcs := ih (fun c' hc' => hres c' (List.mem_cons_of_mem _ hc'))
    rw [Part001.processCells]
    cases hf : c.valueType == some "file" with
    | false =>
      simp only [hf, Bool.false_eq_true, if_false, hcs]
      have htr : Part001.cellTrace props buffers c = [] := by
        rw [Part001.cellTrace, if_neg]
        simp [Part001.isUploadSrc, Part001.isFileCell, hf]
      have hval : Part001.cellVal props buffers oracle c = (c.columnId, c.value.getD "") := by
        rw [Part001.cellVal, if_neg]
        simp [Part001.isFileCell, hf]
      simp [htr, hval]
    | true =>
      cases hsrc : c.fileSource == some "fileId" with
      | true =>
        simp only [hf, if_true, hsrc, hcs]
        have htr : Part001.cellTrace props buffers c = [] := by
          rw [Part001.cellTrace, if_neg]
          simp [Part001.isUploadSrc, Part001.isFileIdSrc, hsrc]
        have hval : Part001.cellVal props buffers oracle c = (c.columnId, c.fileId.getD "") := by
          rw [Part001.cellVal, if_pos, if_pos]
          · simpa [Part001.isFileIdSrc] using hsrc
          · simpa [Part001.isFileCell] using hf
        simp [htr, hval]
      | false =>
        have hupsrc : Part001.isUploadSrc c = true := by
          simp [Part001.isUploadSrc, Part001.isFileCell, Part001.isFileIdSrc, hf, hsrc]
        rcases hres c (List.mem_cons_self _ _) hupsrc with
          ⟨bd, hbd, hpdf, bytes, hbytes, v, hv⟩
        have hup : Part001.uploadFile props buffers i (c.binaryProperty.getD "")
            c.originalFilename oracle
            = ([ApiReq.postFile (resolveFilename c.originalFilename bd.fileName) bytes],
                Except.ok (respId v)) := by
          rw [Part001.uploadFile, hbd]
          simp only [hpdf, Bool.not_true, Bool.false_eq_true, if_false, hbytes, hv]
        simp only [hf, if_true, hsrc, Bool.false_eq_true, if_false, hup, hcs]
        have hmeta : Part001.cellMeta props c = bd := by
          rw [Part001.cellMeta, hbd]; rfl
        have hname : Part001.cellName props c = resolveFilename c.originalFilename bd.fileName := by
          rw [Part001.cellName, hmeta]
        have hbytes' : Part001.cellBytes props buffers c = bytes := by
          rw [Part001.cellBytes, hmeta, hbytes]; rfl
        have htr : Part001.cellTrace props buffers c
            = [ApiReq.postFile (resolveFilename c.originalFilename bd.fileName) bytes] := by
          rw [Part001.cellTrace, if_pos hupsrc, hname, hbytes']
        have hval : Part001.cellVal props buffers oracle c = (c.columnId, respId v) := by
          rw [Part001.cellVal, if_pos, if_neg]
          · rw [hname, hbytes', Part001.uploadIdAt, hv]
          · simp [Part001.isFileIdSrc, hsrc]
          · simpa [Part001.isFileCell] using hf
        simp [htr, hval]

/-- Claim C6: in the `part_001` variant's `create`, when every upload-path
file cell resolves, the request trace is exactly the per-cell upload requests
(in cell order) followed by the single row POST whose `cells` body carries
each cell's resolved value — and a file cell with a pre-supplied `fileId`
contributes NO upload request and is sent as `{columnId, fileId}`. -/
theorem c6_presupplied_fileId_skips_upload :
    ∀ (phacetId sessionId : String) (cells : List Part001.P1Cell)
      (props : String → Option BinaryEntry) (buffers : String → Option (List Nat))
      (i : Nat) (oracle : Oracle),
      phacetId ≠ "" → sessionId ≠ "" → cells ≠ [] →
      (∀ c ∈ cells, Part001.isUploadSrc c = true →
        Part001.Resolves props buffers oracle c) →
      (Part001.createOp phacetId sessionId cells props buffers i oracle).fst
        = cells.flatMap (Part001.cellTrace props buffers)
          ++ [ApiReq.postRow phacetId sessionId
              (cells.map (Part001.cellVal props buffers oracle))]
      ∧ (∀ c ∈ cells, Part001.isFileCell c = true → Part001.isFileIdSrc c = true →
          Part001.cellTrace props buffers c = []
          ∧ Part001.cellVal props buffers oracle c = (c.columnId, c.fileId.getD "")) := by
  intro phacetId sessionId cells props buffers i oracle hph hse hce hres
  have hpc := part001_processCells_spec props buffers i oracle cells hres
  constructor
  · rw [Part001.createOp]
    rw [if_neg (by simpa [bne_iff_ne] using hph), if_neg (by simpa [bne_iff_ne] using hse),
      if_neg (by simpa using hce)]
    rw [hpc]
    cases horc : oracle (ApiReq.postRow phacetId sessionId
        (cells.map (Part001.cellVal props buffers oracle))) with
    | error m => simp [horc]
    | ok v => simp [horc]
  · intro c hc hfile hfid
    refine ⟨?_, ?_⟩
    · rw [Part001.cellTrace, if_neg]
      simp [Part001.isUploadSrc, hfid]
    · rw [Part001.cellVal, if_pos hfile, if_pos hfid]

/-- Witness for C6, the spec's example: cells
`[{columnId: c1, text "x"}, {columnId: c2, file with fileId "f1"}]` produce
exactly one request — the row POST with body cells
`[(c1, x), (c2, f1)]` — and no POST to the files endpoint. -/
theorem c6_presupplied_fileId_skips_upload_witness :
    (Part001.createOp "P" "S"
      [⟨"c1", some "text", some "x", none, none, none, none⟩,
        ⟨"c2", some "file", none, some "fileId", none, none, some "f1"⟩]
      (fun _ => none) (fun _ => none) 0 (fun _ => Except.ok JVal.null)).fst
    = [ApiReq.postRow "P" "S" [("c1", "x"), ("c2", "f1")]] := by
  have h := c6_presupplied_fileId_skips_upload "P" "S"
    [⟨"c1", some "text", some "x", none, none, none, none⟩,
      ⟨"c2", some "file", none, some "fileId", none, none, some "f1"⟩]
    (fun _ => none) (fun _ => none) 0 (fun _ => Except.ok JVal.null)
    (by decide) (by decide) (by simp)
    (by
      intro c hc hup
      rcases List.mem_cons.mp hc with rfl | hc
      · exact absurd hup (by decide)
      · rcases List.mem_singleton.mp hc with rfl
        exact absurd hup (by decide))
  exact h.1

theorem nodeTs_runItems_cof_true (params : Nat → NodeTs.ItemParams)
    (resource operation : String) (oracle : Oracle) (idx : List Nat) :
    (NodeTs.runItems params resource operation true oracle idx).snd
      = Except.ok (idx.flatMap (fun i =>
          match (NodeTs.processItem (params i) i resource operation oracle).snd with
          | Except.ok outs => outs
          | Except.error e => [errRecord e])) := by
  induction idx with
  | nil => rfl
  | cons i is ih =>
    rw [NodeTs.runItems]
    rcases hpi : NodeTs.processItem (params i) i resource operation oracle with ⟨tr, r⟩
    rcases hrec : NodeTs.runItems params resource operation true oracle is with ⟨tr', r'⟩
    rw [hrec] at ih
    cases r' with
    | error e' => simp at ih
    | ok rest =>
      simp only [Except.ok.injEq] at ih
      cases r with
      | ok outs =>
        simp only [hpi, hrec, List.flatMap_cons, Except.ok.injEq]
        rw [ih]
      | error e =>
        simp only [hpi, if_true, hrec, List.flatMap_cons, Except.ok.injEq]
        rw [ih]
        rfl

theorem nodeTs_runItems_cof_false (params : Nat → NodeTs.ItemParams)
    (resource operation : String) (oracle : Oracle) (pre : List Nat) (j : Nat)
    (post : List Nat) (e : ExecError)
    (hok : ∀ i ∈ pre, ∃ outs,
      (NodeTs.processItem (params i) i resource operation oracle).snd = Except.ok outs)
    (herr : (NodeTs.processItem (params j) j resource operation oracle).snd
      = Except.error e) :
    (NodeTs.runItems params resource operation false oracle (pre ++ j :: post)).snd
      = Except.error e := by
  induction pre with
  | nil =>
    rw [List.nil_append, NodeTs.runItems]
    rcases hpj : NodeTs.processItem (params j) j resource operation oracle with ⟨tr, r⟩
    rw [hpj] at herr
    simp only at herr
    rw [herr]
    rfl
  | cons i is ih =>
    rcases hok i (List.mem_cons_self _ _) with ⟨outs, houts⟩
    rw [List.cons_append, NodeTs.runItems]
    rcases hpi : NodeTs.processItem (params i) i resource operation oracle with ⟨tr, r⟩
    rw [hpi] at houts
    simp only at houts
    rw [houts]
    have ih' := ih (fun i' hi' => hok i' (List.mem_cons_of_mem _ hi'))
    rcases hrec : NodeTs.runItems params resource operation false oracle (is ++ j :: post)
      with ⟨tr', r'⟩
    rw [hrec] at ih'
    simp only at ih'
    rw [ih']

/-- Claim C8: under `continueOnFail`, a failed item contributes one inline
`{error: message}` record and every other (in particular every subsequent)
item is still processed — the output is exactly the concatenation of each
item's records, with failures replaced by their inline error records; without
`continueOnFail`, the first failure is rethrown to the caller. -/
theorem c8_continue_on_fail_behaviour :
    ∀ (n : Nat) (params : Nat → NodeTs.ItemParams) (resource operation : String)
      (oracle : Oracle),
      (NodeTs.execute n params resource operation true oracle).snd
        = Except.ok ((List.range n).flatMap (fun i =>
            match (NodeTs.processItem (params i) i resource operation oracle).snd with
            | Except.ok outs => outs
            | Except.error e => [errRecord e]))
      ∧ (∀ e, errRecord e = JVal.obj [("error", JVal.str (ExecError.message e))])
      ∧ (∀ j e, j < n →
          (∀ i, i < j → ∃ outs,
            (NodeTs.processItem (params i) i resource operation oracle).snd
              = Except.ok outs) →
          (NodeTs.processItem (params j) j resource operation oracle).snd
            = Except.error e →
          (NodeTs.execute n params resource operation false oracle).snd
            = Except.error e) := by
  intro n params resource operation oracle
  refine ⟨nodeTs_runItems_cof_true params resource operation oracle (List.range n),
    fun e => rfl, ?_⟩
  intro j e hj hok herr
  rw [NodeTs.execute]
  have hja : j + (n - j) = n := by omega
  have h1 := List.range'_append 0 j (n - j) 1
  have h1' : List.range' 0 j ++ List.range' j (n - j) = List.range' 0 n := by
    simpa [show n - j + j = n from by omega] using h1
  have h2 : List.range' j (n - j) = j :: List.range' (j + 1) (n - j - 1) := by
    obtain ⟨k, hk⟩ : ∃ k, n - j = k + 1 := ⟨n - j - 1, by omega⟩
    rw [hk, List.range'_succ]
    congr 1
  have hsplit : List.range n = List.range' 0 j ++ j :: List.range' (j + 1) (n - j - 1) := by
    rw [List.range_eq_range', ← h1', h2]
  rw [hsplit]
  exact nodeTs_runItems_cof_false params resource operation oracle _ j _ e
    (fun i hi => hok i (by
      have := List.mem_range'.mp hi
      omega)) herr

/-- Witness for C8: two items where item 0 fails validation and item 1
succeeds — with continue-on-fail the output is the inline error record
followed by item 1's record; without it, item 0's error is rethrown. -/
theorem c8_continue_on_fail_behaviour_witness :
    (NodeTs.execute 2
      (fun i => if i = 0 then ⟨"", "", "", "", [], fun _ => none⟩
        else ⟨"T", "", "r1", "", [], fun _ => none⟩)
      "row" "get" true (fun _ => Except.ok JVal.null)).snd
      = Except.ok [errRecord (ExecError.missingTable 0), JVal.null]
    ∧ (NodeTs.execute 2
      (fun i => if i = 0 then ⟨"", "", "", "", [], fun _ => none⟩
        else ⟨"T", "", "r1", "", [], fun _ => none⟩)
      "row" "get" false (fun _ => Except.ok JVal.null)).snd
      = Except.error (ExecError.missingTable 0) := by
  have h := c8_continue_on_fail_behaviour 2
    (fun i => if i = 0 then ⟨"", "", "", "", [], fun _ => none⟩
      else ⟨"T", "", "r1", "", [], fun _ => none⟩)
    "row" "get" (fun _ => Except.ok JVal.null)
  refine ⟨h.1.trans ?_, ?_⟩
  · rfl
  · exact h.2.2 0 (ExecError.missingTable 0) (by omega)
      (fun i hi => absurd hi (by omega)) rfl

theorem dropWhile_all_append (p : Char → Bool) (ds rest : List Char)
    (hds : ∀ c ∈ ds, p c = true)
    (hrest : ∀ c, rest.head? = some c → p c = false) :
    (ds ++ rest).dropWhile p = rest := by
  induction ds with
  | nil =>
    cases rest with
    | nil => rfl
    | cons r rs =>
      have hr : p r = false := hrest r rfl
      simp [List.dropWhile_cons, hr]
  | cons c cs ih =>
    have hc : p c = true := hds c (List.mem_cons_self _ _)
    simp only [List.cons_append, List.dropWhile_cons, hc, if_true]
    exact ih (fun c' hc' => hds c' (List.mem_cons_of_mem _ hc'))

theorem scanLocalhost_id_of_no_match : ∀ s, hasLhMatch s = false → scanLocalhost s = s := by
  intro s
  induction s with
  | nil => intro _; rfl
  | cons c cs ih =>
    intro h
    rw [scanLocalhost, hasLhMatch] at *
    cases hl : leadsWith lhPat (c :: cs) with
    | false =>
      simp only [hl, Bool.false_eq_true, if_false] at h ⊢
      rw [ih h]
    | true =>
      simp only [hl, if_true] at h ⊢
      cases hd : (c :: cs).drop lhPat.length with
      | nil =>
        simp only [hd] at h ⊢
        rw [ih h]
      | cons d r =>
        simp only [hd] at h ⊢
        cases hdig : d.isDigit with
        | true =>
          simp only [hdig, if_true] at h
          exact absurd h (by decide)
        | false =>
          simp only [hdig, Bool.false_eq_true, if_false] at h ⊢
          rw [ih h]

theorem scanLocalhost_replace_at_match (d : Char) (ds rest : List Char)
    (hd : d.isDigit = true) (hds : ∀ c ∈ ds, c.isDigit = true)
    (hrest : ∀ c, rest.head? = some c → c.isDigit = false) :
    scanLocalhost (lhPat ++ (d :: ds) ++ rest) = httpsRepl ++ rest := by
  have hl : lhPat = 'h' :: ("ttp://localhost:").data := by decide
  have hsh : lhPat ++ (d :: ds) ++ rest
      = 'h' :: (("ttp://localhost:").data ++ ((d :: ds) ++ rest)) := by
    rw [hl]; simp
  have hlead : leadsWith lhPat
      ('h' :: (("ttp://localhost:").data ++ ((d :: ds) ++ rest))) = true := by
    rw [← hsh]
    have := leadsWith_append_self lhPat ((d :: ds) ++ rest)
    simpa [List.append_assoc] using this
  have hdrop : ('h' :: (("ttp://localhost:").data ++ ((d :: ds) ++ rest))).drop lhPat.length
      = d :: (ds ++ rest) := by
    rw [← hsh, List.append_assoc, List.drop_left]
    simp
  rw [hsh, scanLocalhost]
  simp only [hlead, if_true, hdrop, hd]
  rw [List.dropWhile_cons]
  simp only [hd, if_true]
  rw [dropWhile_all_append Char.isDigit ds rest hds hrest]

theorem lhPat_append_ne_httpsRepl_append (x y : List Char) :
    lhPat ++ x ≠ httpsRepl ++ y := by
  intro h
  have h5 := congrArg (List.take 5) h
  rw [List.take_append_eq_append_take, List.take_append_eq_append_take] at h5
  rw [show (5 - lhPat.length) = 0 from by decide,
    show (5 - httpsRepl.length) = 0 from by decide,
    List.take_zero, List.take_zero, List.append_nil, List.append_nil] at h5
  exact absurd h5 (by decide)

/-- Counterexample to C9 as stated: a callback URL whose PREFIX does not
match `http://localhost:<port>` (it starts with `https://h.example/...`) is
still rewritten, because `String.replace` with the non-global regex
`/http:\/\/localhost:\d+/` substitutes the first match ANYWHERE in the
string — here inside the query string — so this "other" URL is not
registered unchanged. -/
theorem c9_counterexample :
    leadsWith lhPat ("https://h.example/hook?next=http://localhost:80").data = false
    ∧ NodeTs.createHook "https://h.example/hook?next=http://localhost:80" "row.created" ""
      = ApiReq.postEndpoint "https://h.example/hook?next=https://api.phacetlabs.com"
          ["row.created"] [] "n8n trigger for row.created"
    ∧ replaceLocalhost "https://h.example/hook?next=http://localhost:80"
      ≠ "https://h.example/hook?next=http://localhost:80" := by
  refine ⟨by decide, rfl, by decide⟩

/-- Claim C9, amended: `create()` registers `replaceLocalhost(url)`, where
the rewrite substitutes `https://api.phacetlabs.com` for the FIRST (leftmost,
greedy) occurrence of `http://localhost:<digits>` anywhere in the URL — in
particular a URL starting with `http://localhost:<port>` is registered with
that prefix replaced, and so differs from the URL the host serves — while a
URL with no such occurrence anywhere is registered unchanged. -/
theorem c9_localhost_rewrite_amended :
    ∀ (url event phacetId : String),
      NodeTs.createHook url event phacetId
        = ApiReq.postEndpoint (replaceLocalhost url) [event]
            (if phacetId == "" then [] else [phacetId]) ("n8n trigger for " ++ event)
      ∧ (hasLhMatch url.data = false → replaceLocalhost url = url)
      ∧ (∀ (d : Char) (ds rest : List Char),
          d.isDigit = true → (∀ c ∈ ds, c.isDigit = true) →
          (∀ c, rest.head? = some c → c.isDigit = false) →
          url.data = lhPat ++ (d :: ds) ++ rest →
          (replaceLocalhost url).data = httpsRepl ++ rest
          ∧ replaceLocalhost url ≠ url) := by
  intro url event phacetId
  refine ⟨rfl, ?_, ?_⟩
  · intro h
    cases url with
    | mk data =>
      rw [replaceLocalhost]
      simp only at h ⊢
      rw [scanLocalhost_id_of_no_match data h]
  · intro d ds rest hd hds hrest hurl
    have hdata : (replaceLocalhost url).data = httpsRepl ++ rest := by
      rw [replaceLocalhost]
      simp only
      rw [hurl, scanLocalhost_replace_at_match d ds rest hd hds hrest]
    refine ⟨hdata, ?_⟩
    intro h
    have h2 := congrArg String.data h
    rw [hdata, hurl] at h2
    exact lhPat_append_ne_httpsRepl_append ((d :: ds) ++ rest) rest
      (by rw [← List.append_assoc, ← h2])

/-- Witness for the amended C9: the host URL
`http://localhost:5678/webhook/abc` is registered as
`https://api.phacetlabs.com/webhook/abc`, which differs from the served URL. -/
theorem c9_localhost_rewrite_amended_witness :
    (replaceLocalhost "http://localhost:5678/webhook/abc").data
      = httpsRepl ++ ("/webhook/abc").data
    ∧ replaceLocalhost "http://localhost:5678/webhook/abc"
      ≠ "http://localhost:5678/webhook/abc" := by
  have h := c9_localhost_rewrite_amended "http://localhost:5678/webhook/abc" "e" ""
  have h3 := h.2.2 '5' ("678").data ("/webhook/abc").data (by decide) (by decide)
    (by
      intro c hc
      have h1 : ("/webhook/abc").data.head? = some '/' := rfl
      rw [h1] at hc
      injection hc with hc2
      rw [← hc2]
      decide)
    (by decide)
  exact ⟨h3.1, h3.2⟩

/-- Claim C10: with no caller-supplied `originalFilename` and no `fileName`
in the binary metadata, `uploadFile` defaults the filename to `file.pdf`;
that default passes the PDF-extension check, so validation never rejects, and
for every payload the single upload request is labelled `file.pdf`, with the
multipart body carrying `filename="file.pdf"` and
`Content-Type: application/pdf` regardless of the payload's content. -/
theorem c10_default_filename :
    ∀ (binary : String → Option BinaryEntry) (bp : String) (bytes tail : List Nat)
      (oracle : Oracle),
      binary bp = some ⟨none, none, bytes⟩ →
      resolveFilename none none = "file.pdf"
      ∧ pdfOk "file.pdf" = true
      ∧ (NodeTs.uploadFile binary 0 bp none oracle).fst
        = [ApiReq.postFile "file.pdf" bytes]
      ∧ (∀ e, (NodeTs.uploadFile binary 0 bp none oracle).snd = Except.error e →
          ExecError.isNotPdf e = false)
      ∧ postFileBody tail "file.pdf" bytes
        = dashdash ++ mkBoundary tail ++ crlf ++ dispositionLead
          ++ asciiBytes "file.pdf" ++ [34] ++ crlf ++ contentTypeBytes ++ crlf ++ crlf
          ++ bytes ++ crlf ++ dashdash ++ mkBoundary tail ++ dashdash ++ crlf := by
  intro binary bp bytes tail oracle hbin
  have hres : resolveFilename none (none : Option String) = "file.pdf" := by decide
  have hpdf : pdfOk "file.pdf" = true := by decide
  have hstep : ∀ oracle' : Oracle, NodeTs.uploadFile binary 0 bp none oracle'
      = (match oracle' (ApiReq.postFile "file.pdf" bytes) with
          | Except.error m => ([ApiReq.postFile "file.pdf" bytes],
              Except.error (ExecError.httpFail m))
          | Except.ok v => ([ApiReq.postFile "file.pdf" bytes],
              Except.ok (respId v, "file.pdf"))) := by
    intro oracle'
    rw [NodeTs.uploadFile, hbin]
    simp only [hres, hpdf, Bool.not_true, Bool.false_eq_true, if_false]
  refine ⟨hres, hpdf, ?_, ?_, ?_⟩
  · rw [hstep oracle]
    cases horc : oracle (ApiReq.postFile "file.pdf" bytes) with
    | error m => simp [horc]
    | ok v => simp [horc]
  · intro e he
    rw [hstep oracle] at he
    cases horc : oracle (ApiReq.postFile "file.pdf" bytes) with
    | error m =>
      rw [horc] at he
      simp only [Except.error.injEq] at he
      rw [← he]
      rfl
    | ok v =>
      rw [horc] at he
      simp at he
  · rw [postFileBody, multipartBody]
    have e1 : asciiBytes ("--") = dashdash := rfl
    have e2 : asciiBytes ("\r\n") = crlf := rfl
    have e3 : asciiBytes ("Content-Disposition: form-data; name=\"file\"; filename=\"")
        = dispositionLead := rfl
    have e4 : asciiBytes ("\"\r\n") = [34] ++ crlf := rfl
    have e5 : asciiBytes ("Content-Type: application/pdf\r\n\r\n")
        = contentTypeBytes ++ crlf ++ crlf := by decide
    have e6 : asciiBytes ("\r\n--") = crlf ++ dashdash := rfl
    have e7 : asciiBytes ("--\r\n") = dashdash ++ crlf := rfl
    rw [e1, e2, e3, e4, e5, e6, e7]
    simp only [List.append_assoc]

/-- Counterexample to C1 as stated: the filename `a".pdf` passes the PDF
check and is spliced verbatim into the `Content-Disposition` header, where
its double quote closes the `filename="..."` parameter early; a conforming
parse of the resulting body (whose payload does not contain the boundary
token) does NOT yield a part with the original filename. -/
theorem c1_counterexample :
    containsSeq (mkBoundary (asciiBytes "0.5abc")) (asciiBytes "payload") = false
    ∧ pdfOk "a\".pdf" = true
    ∧ parseMultipart (mkBoundary (asciiBytes "0.5abc"))
        (multipartBody (mkBoundary (asciiBytes "0.5abc")) (asciiBytes "a\".pdf")
          (asciiBytes "payload"))
      ≠ some (asciiBytes "a\".pdf", asciiBytes "payload") := by
  refine ⟨by decide, by decide, by decide⟩

/-- Claim C1, amended: for every boundary suffix `Math.random().toString(16)`
can produce, every filename free of double-quote and CR bytes, and every
payload not containing the boundary token, the body built by `uploadFile` is
exactly the concatenation, in order, of `--{boundary}\r\n`, the
`Content-Disposition` header naming the filename, the
`Content-Type: application/pdf` header block, the payload bytes verbatim,
and `\r\n--{boundary}--\r\n` — and a conforming multipart parse of that body
yields exactly one part whose filename and body bytes equal the inputs. -/
theorem c1_multipart_encode_parse_amended :
    ∀ (tail fn payload : List Nat),
      (∀ b ∈ tail, isBoundaryTailByte b = true) →
      (∀ b ∈ fn, b ≠ 34) →
      (∀ b ∈ fn, b ≠ 13) →
      containsSeq (mkBoundary tail) payload = false →
      multipartBody (mkBoundary tail) fn payload
        = asciiBytes "--" ++ mkBoundary tail ++ asciiBytes "\r\n"
          ++ asciiBytes "Content-Disposition: form-data; name=\"file\"; filename=\""
          ++ fn ++ asciiBytes "\"\r\n"
          ++ asciiBytes "Content-Type: application/pdf\r\n\r\n"
          ++ payload
          ++ asciiBytes "\r\n--" ++ mkBoundary tail ++ asciiBytes "--\r\n"
      ∧ parseMultipart (mkBoundary tail) (multipartBody (mkBoundary tail) fn payload)
          = some (fn, payload) := by
  intro tail fn payload htail h34 h13 hpl
  exact ⟨rfl, parseMultipart_multipartBody tail fn payload htail h34 h13 hpl⟩

/-- Witness for the amended C1: a `doc.pdf` part with the payload bytes
`%PDF` round-trips through encode and conforming parse. -/
theorem c1_multipart_encode_parse_amended_witness :
    parseMultipart (mkBoundary (asciiBytes "0.5abc"))
      (multipartBody (mkBoundary (asciiBytes "0.5abc")) (asciiBytes "doc.pdf")
        [37, 80, 68, 70])
      = some (asciiBytes "doc.pdf", [37, 80, 68, 70]) :=
  (c1_multipart_encode_parse_amended (asciiBytes "0.5abc") (asciiBytes "doc.pdf")
    [37, 80, 68, 70] (by decide) (by decide) (by decide) (by decide)).2

/-- Witness for C10: the default `file.pdf` path issues exactly the one
upload request for an arbitrary concrete payload. -/
theorem c10_default_filename_witness :
    (NodeTs.uploadFile (fun _ => some ⟨none, none, [1, 2, 3]⟩) 0 "data" none
      (fun _ => Except.ok (JVal.obj [("id", JVal.str "F1")]))).fst
      = [ApiReq.postFile "file.pdf" [1, 2, 3]] :=
  (c10_default_filename (fun _ => some ⟨none, none, [1, 2, 3]⟩) "data" [1, 2, 3] []
    (fun _ => Except.ok (JVal.obj [("id", JVal.str "F1")])) rfl).2.2.1
